import Mathlib

/-!
# Verification of the Bike-Metro graph-conflation pipeline (`build_map.py`)

A shallow embedding, in Lean 4, of the graph-conflation and labeling engine of
`build_map.py` (Circuit Trails + SEPTA rail map pipeline), together with
theorems settling the frozen claims about it.

Conventions of the embedding:
* Python strings are embedded as `List Char` (`Str`).  The regular expressions
  of the source are translated into executable scanning functions that
  reproduce the leftmost-match / alternation-order semantics of Python's `re`
  for the specific patterns used (documented at each definition).  Character
  classes use their ASCII meaning (`\w` = alphanumeric or underscore,
  `\s` = space, tab, newline, CR, VT, FF), which is exact for the data the
  pipeline handles.
* Coordinates are embedded as rationals (`ℚ`).  The source compares
  `math.sqrt(dx*dx + dy*dy)` against thresholds and against other distances;
  since `sqrt` is strictly monotone on nonnegative reals, every such
  comparison is embedded as the corresponding comparison of *squared*
  distances, which is exact.
* Property dictionaries become structures; the degree counters that the
  source stores as strings ("0", "2", …) are embedded as integers, with the
  hide operations writing 0 where the source writes "0".
* Node ids are assumed unique within a graph (the data model guarantees
  this); where the source indexes a dict built from the feature list, the
  embedding maps over the list, which is equivalent under that assumption.
-/

namespace BikeMetro

/-- Python strings, embedded as lists of characters. -/
abbrev Str := List Char

/-- Shorthand turning a Lean string literal into the embedded representation. -/
def str (s : String) : Str := s.toList

/-- `\w` of Python `re` (ASCII): letters, digits, underscore. -/
def isWordChar (c : Char) : Bool := c.isAlphanum || c == '_'

/-- `\s` of Python `re` (ASCII): space, tab, newline, CR, VT, FF. -/
def isSpaceChar (c : Char) : Bool :=
  c == ' ' || c == '\t' || c == '\n' || c == '\x0d' || c == '\x0b' || c == '\x0c'

/-- The character class `[\s,\-]` used around the generic-suffix pattern. -/
def isSuffixSep (c : Char) : Bool := isSpaceChar c || c == ',' || c == '-'

/-- Python `str.strip()`: drop leading and trailing whitespace. -/
def pyStrip (s : Str) : Str :=
  ((s.dropWhile isSpaceChar).reverse.dropWhile isSpaceChar).reverse

/-- Python `str.strip(chars)`: drop leading and trailing characters of a set. -/
def pyStripSet (chars : List Char) (s : Str) : Str :=
  ((s.dropWhile (· ∈ chars)).reverse.dropWhile (· ∈ chars)).reverse

/-- Case-insensitive equality of characters (ASCII lowering, as Python
`re.IGNORECASE` applies to the data at hand). -/
def ciEq (a b : Char) : Bool := a.toLower == b.toLower

/-- Case-insensitive equality of strings (Python `x.lower() == y.lower()`). -/
def ciStrEq (a b : Str) : Bool := a.map Char.toLower == b.map Char.toLower

/-- Does `pat` match a prefix of `s` case-insensitively (a literal pattern
under `re.IGNORECASE`)? -/
def ciIsPrefixOf : Str → Str → Bool
  | [], _ => true
  | _ :: _, [] => false
  | a :: as, b :: bs => ciEq a b && ciIsPrefixOf as bs

/-- Consume a literal word case-insensitively, returning the rest on success. -/
def ciConsume : Str → Str → Option Str
  | [], s => some s
  | _ :: _, [] => none
  | a :: as, b :: bs => if ciEq a b then ciConsume as bs else none

/-- Wordness of the first character of a string; the end of the subject
counts as non-word for `\b` purposes. -/
def headWordness (s : Str) : Bool :=
  match s.head? with
  | some d => isWordChar d
  | none => false

/-- Wordness of the last character of a string, with a default for the
empty string. -/
def lastWordness (dflt : Bool) (s : Str) : Bool :=
  match s.getLast? with
  | some d => isWordChar d
  | none => dflt

/-! ### The generic-suffix pattern `_SUFFIX_RE`

`[\s,\-]*\b(trailhead|trail\s+head|parking\s+area|parking\s+lot|parking|`
`access\s+point|access\s+area|access)\b[\s,\-]*$` with `re.IGNORECASE`.

`re.sub` removes the leftmost match; because the pattern is anchored at `$`
there is at most one.  A match is an occurrence of one of the alternatives,
preceded by a word boundary, followed only by `[\s,\-]` characters up to the
end of the string; the removal additionally extends left over the maximal
run of `[\s,\-]` characters immediately before the alternative (eaten by the
leading `[\s,\-]*`).  The scan below finds the leftmost such occurrence. -/

/-- One alternative of `_SUFFIX_RE`: a phrase of literal words separated by
`\s+`.  Matches a prefix of `s` and returns the rest. -/
def phraseMatchRest : List Str → Str → Option Str
  | [], s => some s
  | [w], s => ciConsume w s
  | w :: ws, s =>
      match ciConsume w s with
      | none => none
      | some r =>
          match r with
          | [] => none
          | c :: cs =>
              if isSpaceChar c then phraseMatchRest ws (cs.dropWhile isSpaceChar)
              else none

/-- The alternatives of `_SUFFIX_RE`, in alternation order. -/
def suffixPhrases : List (List Str) :=
  [[str "trailhead"], [str "trail", str "head"], [str "parking", str "area"],
   [str "parking", str "lot"], [str "parking"], [str "access", str "point"],
   [str "access", str "area"], [str "access"]]

/-- Does some suffix alternative match at the current position and run out to
the end of the string through `[\s,\-]*$`? -/
def suffixMatchHere (s : Str) : Bool :=
  suffixPhrases.any fun ph =>
    match phraseMatchRest ph s with
    | some rest => rest.all isSuffixSep
    | none => false

/-- Leftmost-match scan for `_SUFFIX_RE.sub("", ·)`.  `kept` holds the
confirmed output, `pend` the maximal run of `[\s,\-]` characters immediately
before the current position (removed together with a match), and `prevW` the
wordness of the previous character (for the `\b` before the alternative;
every alternative starts with a letter, so the boundary holds iff the
previous character is non-word). -/
def stripSuffixAux (prevW : Bool) (kept pend : Str) : Str → Str
  | [] => kept ++ pend
  | c :: cs =>
      if !prevW && suffixMatchHere (c :: cs) then kept
      else if isSuffixSep c then stripSuffixAux (isWordChar c) kept (pend ++ [c]) cs
      else stripSuffixAux (isWordChar c) (kept ++ pend ++ [c]) [] cs

/-- `_SUFFIX_RE.sub("", s)`. -/
def stripSuffixSub (s : Str) : Str := stripSuffixAux false [] [] s

/-- Step 1 of `normalize_label`: `_SUFFIX_RE.sub("", name).strip()`. -/
def afterSuffixOf (name : Str) : Str := pyStrip (stripSuffixSub name)

/-! ### Whole-word route-name removal

`re.sub(r"\b" + re.escape(rname) + r"\b", "", s, flags=re.IGNORECASE)`:
remove every non-overlapping whole-word occurrence of the literal `rname`,
scanning left to right.  Word boundaries are judged on the subject string's
characters, with positions outside the string counting as non-word. -/

/-- Does the literal `rn` match at the head of `s` with `\b` on both sides?
`prevW` is the wordness of the character before the current position. -/
def wordMatchAt (rn : Str) (prevW : Bool) (s : Str) : Bool :=
  match rn, s with
  | [], _ => false
  | _ :: _, [] => false
  | _ :: _, c :: _ =>
      (prevW != isWordChar c) && ciIsPrefixOf rn s &&
        (lastWordness prevW (s.take rn.length) != headWordness (s.drop rn.length))

/-- Left-to-right removal of non-overlapping whole-word occurrences.  The
fuel argument (instantiated with `s.length`) makes the recursion structural;
each step consumes at least one character of `s`. -/
def removeWordAux (rn : Str) : Nat → Bool → Str → Str
  | 0, _, s => s
  | _ + 1, _, [] => []
  | fuel + 1, prevW, c :: cs =>
      if wordMatchAt rn prevW (c :: cs) then
        removeWordAux rn fuel (lastWordness prevW ((c :: cs).take rn.length))
          ((c :: cs).drop rn.length)
      else c :: removeWordAux rn fuel (isWordChar c) cs

/-- `re.sub` of a whole-word literal pattern by the empty string. -/
def removeWordCI (rn s : Str) : Str := removeWordAux rn s.length false s

/-- Is there a whole-word occurrence of `rn` at or after the current
position? -/
def containsWordAux (rn : Str) : Bool → Str → Bool
  | _, [] => false
  | prevW, c :: cs => wordMatchAt rn prevW (c :: cs) || containsWordAux rn (isWordChar c) cs

/-- Does `s` contain a whole-word occurrence of `rn` (case-insensitive)? -/
def containsWordCI (rn s : Str) : Bool := containsWordAux rn false s

/-! ### The residue-collapsing guard

`re.sub(r"[\s,.\-&/]+", " ", candidate).strip()` — collapse every run of
separator characters to a single space, then strip; only its length is used
(the 3-meaningful-characters guard). -/

/-- The character class `[\s,.\-&/]`. -/
def isCleanSep (c : Char) : Bool :=
  isSpaceChar c || c == ',' || c == '.' || c == '-' || c == '&' || c == '/'

/-- Collapse runs of spaces to a single space. -/
def squeezeSpaces : Str → Str
  | [] => []
  | [c] => [c]
  | a :: b :: rest =>
      if a == ' ' && b == ' ' then squeezeSpaces (b :: rest)
      else a :: squeezeSpaces (b :: rest)

/-- `re.sub(r"[\s,.\-&/]+", " ", s).strip()`. -/
def cleanCollapse (s : Str) : Str :=
  pyStrip (squeezeSpaces (s.map fun c => if isCleanSep c then ' ' else c))

/-- One iteration of the route-name loop body of `normalize_label` (source
lines 396–408): names shorter than 5 characters are skipped; otherwise the
whole-word removal is kept only if it leaves at least 3 meaningful
characters. -/
def stripRouteStep (acc : Str) (rname : Str) : Str :=
  if rname.length < 5 then acc
  else
    let candidate := removeWordCI rname acc
    if (cleanCollapse candidate).length < 3 then acc
    else candidate

/-- The route-name loop.  The list argument stands for
`sorted(route_names, key=len, reverse=True)`: iteration in length-descending
order (ties in an unspecified order, `route_names` being a Python set). -/
def stripRoutes (routes : List Str) (s : Str) : Str := routes.foldl stripRouteStep s

/-! ### The connector pattern `_CONNECTOR_RE`

`^\s*(\band\b|\bor\b|&|\bat\b|\bnear\b|[-,/])\s*`
`|\s*(\band\b|\bor\b|&|\bat\b|\bnear\b|[-,/])\s*$` with `re.IGNORECASE`.

One `sub` removes at most one leading match (anchored at `^`) and then at
most one trailing match (anchored at `$`, searched from the end of the
leading match, leftmost position winning). -/

/-- Match one word connector (`\band\b` etc.) at the head of `s`: the `\b`
before requires the previous character non-word (all word connectors start
with a letter), the `\b` after requires the next character non-word. -/
def connTryWord (prevW : Bool) (w s : Str) : Option Str :=
  if prevW then none
  else
    match ciConsume w s with
    | some r => if headWordness r then none else some r
    | none => none

/-- Match the `&` connector (no word boundaries in the pattern). -/
def connAmp (s : Str) : Option Str :=
  match s with
  | c :: rest => if c == '&' then some rest else none
  | [] => none

/-- Match the `[-,/]` connector class. -/
def connPunct (s : Str) : Option Str :=
  match s with
  | c :: rest => if c == '-' || c == ',' || c == '/' then some rest else none
  | [] => none

/-- Match one connector alternative at the head of `s`, in alternation
order (`and`, `or`, `&`, `at`, `near`, `[-,/]`).  `prevW` is the wordness of
the preceding character. -/
def connMatch (prevW : Bool) (s : Str) : Option Str :=
  (connTryWord prevW (str "and") s).orElse fun _ =>
  (connTryWord prevW (str "or") s).orElse fun _ =>
  (connAmp s).orElse fun _ =>
  (connTryWord prevW (str "at") s).orElse fun _ =>
  (connTryWord prevW (str "near") s).orElse fun _ =>
  connPunct s

/-- Does `\s*(conn)\s*$` match exactly at the current position?  `prevW` is
the wordness of the character before this position. -/
def trailMatchHere (prevW : Bool) (s : Str) : Bool :=
  let core := s.dropWhile isSpaceChar
  let pw := if core.length == s.length then prevW else false
  match connMatch pw core with
  | some r => r.all isSpaceChar
  | none => false

/-- Remove the leftmost trailing-connector match (drop everything from the
first position where `\s*(conn)\s*$` succeeds). -/
def trailConnStrip (prevW : Bool) : Str → Str
  | [] => []
  | c :: cs =>
      if trailMatchHere prevW (c :: cs) then []
      else c :: trailConnStrip (isWordChar c) cs

/-- `_CONNECTOR_RE.sub("", s)`: remove the leading match (if any), then the
leftmost trailing match in the remainder. -/
def connectorSubOnce (s : Str) : Str :=
  let w := s.dropWhile isSpaceChar
  match connMatch false w with
  | some r =>
      let rest := r.dropWhile isSpaceChar
      let pw := if rest.length == r.length then lastWordness false (w.take (w.length - r.length)) else false
      trailConnStrip pw rest
  | none => trailConnStrip false s

/-- The characters of `.strip(" ,.-&/")`. -/
def connStripChars : List Char := [' ', ',', '.', '-', '&', '/']

/-- One pass of step 3: `_CONNECTOR_RE.sub("", x).strip(" ,.-&/")`. -/
def connectorCleanStep (s : Str) : Str := pyStripSet connStripChars (connectorSubOnce s)

/-- Step 3 of `normalize_label`: three passes of connector cleanup. -/
def connectorClean (s : Str) : Str :=
  connectorCleanStep (connectorCleanStep (connectorCleanStep s))

/-- `normalize_label(name, route_names)` (source lines 375–418).  The route
list stands for the length-descending iteration over the route-name set. -/
def normalizeLabel (name : Str) (routeNames : List Str) : Str :=
  let afterSuffix := afterSuffixOf name
  let afterRoutes := connectorClean (stripRoutes routeNames afterSuffix)
  let result := if 3 ≤ afterRoutes.length then afterRoutes else afterSuffix
  if 3 ≤ (pyStrip result).length then pyStrip result else name

/-! ## The feature graph -/

/-- Python `str.strip()` on embedded `String`s. -/
def sstrip (s : String) : String := (pyStrip s.toList).asString

/-- Python `str.lower()` on embedded `String`s (ASCII lowering). -/
def slower (s : String) : String := (s.toList.map Char.toLower).asString

/-! Rational arithmetic through `mkRat`, which the kernel can evaluate (the
`Mul`/`Add`/`Sub` instances of `ℚ` are irreducible); each helper is proved
equal to the standard operation. -/

/-- Multiplication on `ℚ` in kernel-evaluable form. -/
def qMul (a b : ℚ) : ℚ := mkRat (a.num * b.num) (a.den * b.den)

/-- Addition on `ℚ` in kernel-evaluable form. -/
def qAdd (a b : ℚ) : ℚ := mkRat (a.num * b.den + b.num * a.den) (a.den * b.den)

/-- Subtraction on `ℚ` in kernel-evaluable form. -/
def qSub (a b : ℚ) : ℚ := mkRat (a.num * b.den - b.num * a.den) (a.den * b.den)

/-- `TRAILHEAD_MATCH_DIST = 0.002` (degrees; from `config.py`). -/
def TRAILHEAD_MATCH_DIST : ℚ := mkRat 2 1000

/-- `TRAILHEAD_INSERT_DIST = 0.001`. -/
def TRAILHEAD_INSERT_DIST : ℚ := mkRat 1 1000

/-- `ENDPOINT_MERGE_DIST = 0.006`. -/
def ENDPOINT_MERGE_DIST : ℚ := mkRat 6 1000

/-- `AMENITY_MATCH_DIST = 0.001`. -/
def AMENITY_MATCH_DIST : ℚ := mkRat 1 1000

/-- `AMENITY_MIN_SPACING = 0.002`. -/
def AMENITY_MIN_SPACING : ℚ := mkRat 2 1000

/-- `RAIL_STATION_MERGE_DIST = 0.002`. -/
def RAIL_STATION_MERGE_DIST : ℚ := mkRat 2 1000

/-- Squared planar distance.  The source compares
`math.sqrt(dx**2 + dy**2)` with thresholds and with other such distances;
`sqrt` being strictly monotone on nonnegatives, all comparisons are embedded
on squares. -/
def distSq (x1 y1 x2 y2 : ℚ) : ℚ :=
  qAdd (qMul (qSub x1 x2) (qSub x1 x2)) (qMul (qSub y1 y2) (qSub y1 y2))

/-- A Point feature: id, coordinates and the properties the conflation
passes read and write.  The degree counters, stored in the source as strings
("0", "2", …), are embedded as integers. -/
structure Node where
  id : String
  lon : ℚ
  lat : ℚ
  station_id : String := ""
  station_label : String := ""
  node_type : String := ""
  priority : Int := 0
  osm_named : Bool := false
  deg : Int := 2
  deg_in : Int := 0
  deg_out : Int := 0
  has_parking : Bool := false
deriving Repr, DecidableEq

/-- A line (route) membership entry of an edge's `lines` list. -/
structure LineRef where
  lid : String
  label : String
deriving Repr, DecidableEq

/-- A LineString feature: endpoint ids, polyline, line memberships. -/
structure Edge where
  fromId : String
  toId : String
  coords : List (ℚ × ℚ)
  lines : List LineRef
deriving Repr, DecidableEq

/-- A feature of the graph: a Point or a LineString. -/
inductive Feat where
  | pt (n : Node)
  | ln (e : Edge)
deriving Repr, DecidableEq

/-- Is a feature a Point? -/
def Feat.isPt : Feat → Bool
  | .pt _ => true
  | .ln _ => false

/-! ## Stage 3b second half: the label de-duplication pass
(`normalize_labels`, source lines 680–717)

`labeled_pts` is the sublist of Point features whose stripped
`station_label` is non-empty, collected once before the double loop; the
loop reads and clears labels through the feature references, so the pass is
embedded as a function on that sublist. -/

/-- `(2 * TRAILHEAD_MATCH_DIST) ** 2`. -/
def dedupDistSq : ℚ :=
  qMul (qMul (mkRat 2 1) TRAILHEAD_MATCH_DIST) (qMul (mkRat 2 1) TRAILHEAD_MATCH_DIST)

/-- The inner-loop guards of the de-duplication pass: the colliding partner
must have a non-empty stripped label, case-insensitively equal to the
current one, strictly within the radius. -/
def dedupCollide (ni nj : Node) : Bool :=
  (sstrip nj.station_label != "") &&
    (slower (sstrip ni.station_label) == slower (sstrip nj.station_label)) &&
    decide (distSq ni.lon ni.lat nj.lon nj.lat < dedupDistSq)

/-- `drop_j`: on differing priorities the lower one is dropped; on a tie,
`(i_named and not j_named) or (i_named == j_named and i_deg <= j_deg)`. -/
def dedupDropJ (ni nj : Node) : Bool :=
  if ni.priority != nj.priority then decide (nj.priority < ni.priority)
  else (ni.osm_named && !nj.osm_named) ||
    ((ni.osm_named == nj.osm_named) && decide (ni.deg ≤ nj.deg))

/-- Clearing a de-duplication victim:
`station_label = ""`, `station_id = ""`. -/
def clearLabel (n : Node) : Node := { n with station_label := "", station_id := "" }

/-- The inner `j` loop: scan forward from `j`, clear the victim of the first
collision and stop (`break`).  Fuel (instantiated with `pts.length`) bounds
the scan. -/
def dedupInner (pts : List Node) (i : Nat) : Nat → Nat → List Node
  | 0, _ => pts
  | fuel + 1, j =>
      match pts[i]?, pts[j]? with
      | some ni, some nj =>
          if dedupCollide ni nj then
            if dedupDropJ ni nj then pts.set j (clearLabel nj)
            else pts.set i (clearLabel ni)
          else dedupInner pts i fuel (j + 1)
      | _, _ => pts

/-- The outer `i` loop: skip entries whose (re-read) stripped label is
empty, otherwise run the inner loop from `i + 1`. -/
def dedupOuter : Nat → Nat → List Node → List Node
  | 0, _, pts => pts
  | fuel + 1, i, pts =>
      match pts[i]? with
      | some ni =>
          if sstrip ni.station_label == "" then dedupOuter fuel (i + 1) pts
          else dedupOuter fuel (i + 1) (dedupInner pts i pts.length (i + 1))
      | none => pts

/-- The de-duplication pass over the list of labelled Point features. -/
def dedupPass (pts : List Node) : List Node := dedupOuter pts.length 0 pts

/-- A node is off a label class `L` when its stripped label is empty or
lowers to something other than `L`. -/
def offClass (L : String) (n : Node) : Prop :=
  sstrip n.station_label = "" ∨ slower (sstrip n.station_label) ≠ L

/-- Counterexample graph for the de-duplication convergence claim: three
nodes with the same label "X", pairwise within `2 * TRAILHEAD_MATCH_DIST`,
with priorities 50, 40, 50. -/
def cexDedupA : Node :=
  { id := "a", lon := mkRat 0 1, lat := mkRat 0 1, station_id := "a",
    station_label := "X", priority := 50 }

/-- Second counterexample node (the middle one, priority 40). -/
def cexDedupB : Node :=
  { id := "b", lon := mkRat 1 1000, lat := mkRat 0 1, station_id := "b",
    station_label := "X", priority := 40 }

/-- Third counterexample node (priority 50). -/
def cexDedupC : Node :=
  { id := "c", lon := mkRat 2 1000, lat := mkRat 0 1, station_id := "c",
    station_label := "X", priority := 50 }

/-- Concrete two-node instance for the witness of `claim_C1_amended`. -/
def witDedupA : Node :=
  { id := "wa", lon := mkRat 0 1, lat := mkRat 0 1, station_id := "wa",
    station_label := "Norristown", priority := 100, node_type := "rail_station" }

/-- Second witness node: a named trailhead with the same label. -/
def witDedupB : Node :=
  { id := "wb", lon := mkRat 3 1000, lat := mkRat 0 1, station_id := "wb",
    station_label := "norristown", priority := 50, osm_named := true }

/-! ## Node classification and the priority table (`_NODE_PRIORITY`,
`_classify_trail_node`, source lines 177–208), and the node-property
updates performed by the passes. -/

/-- The priority table `_NODE_PRIORITY`.  `none` for a type outside the
table (the dict raises/`get`-defaults there). -/
def NODE_PRIORITY : String → Option Int
  | "rail_station" => some 100
  | "named_trailhead" => some 50
  | "synthetic_trailhead" => some 40
  | "amenity_bearing" => some 30
  | "unnamed_endpoint" => some 20
  | "unnamed_interior" => some 10
  | _ => none

/-- `_classify_trail_node`: an already-classified node keeps its type with
`_NODE_PRIORITY.get(ntype, 10)`; otherwise the rule chain of lines 198–208.
(The fresh branches read the table totally; all their types are in it.) -/
def classifyTrailNode (n : Node) : String × Int :=
  if n.node_type ≠ "" then (n.node_type, (NODE_PRIORITY n.node_type).getD 10)
  else
    let label := sstrip n.station_label
    let ntype :=
      if n.osm_named = true ∧ label ≠ "" then "named_trailhead"
      else if label ≠ "" ∧ n.id.startsWith "th_" then "synthetic_trailhead"
      else if label ≠ "" then "named_trailhead"
      else if n.deg = 1 then "unnamed_endpoint"
      else "unnamed_interior"
    (ntype, (NODE_PRIORITY ntype).getD 10)

/-- Writing the classification back onto the node (merge step 3). -/
def applyClassify (n : Node) : Node :=
  { n with node_type := (classifyTrailNode n).1, priority := (classifyTrailNode n).2 }

/-- `_make_rail_id`. -/
def makeRailId (s : String) : String := "rail_" ++ s

/-- Rail-point preparation (merge steps 1–2): prefix the id, mirror it into
`station_id` when non-empty, tag as a rail station at priority 100. -/
def prepRailPoint (n : Node) : Node :=
  let newId := makeRailId n.id
  { n with id := newId,
           station_id := if n.station_id ≠ "" then newId else n.station_id,
           node_type := "rail_station", priority := 100 }

/-- Rail-edge preparation (merge step 1): prefix both endpoint ids. -/
def prepRailEdge (e : Edge) : Edge :=
  { e with fromId := makeRailId e.fromId, toId := makeRailId e.toId }

/-- Hiding an absorbed trail node (merge_rail lines 320–328): labels and
degree counters cleared, `node_type` set to "absorbed" — the `priority`
field is left untouched. -/
def hideAbsorbed (n : Node) : Node :=
  { n with station_id := "", station_label := "",
           deg := 0, deg_in := 0, deg_out := 0, node_type := "absorbed" }

/-- `_hide` of `merge_nearby_endpoints` (lines 794–801) and the hide of
`filter_nodes` (line 1128): labels and degree counters cleared; neither
`node_type` nor `priority` is touched. -/
def hideNode (n : Node) : Node :=
  { n with station_id := "", station_label := "",
           deg := 0, deg_in := 0, deg_out := 0 }

/-- The pass-1 labelling of `add_trailheads` (lines 529–535): label the
node, mark it externally named, classify as a named trailhead. -/
def labelTrailheadPass1 (name : String) (n : Node) : Node :=
  { n with station_label := name, station_id := n.id, osm_named := true,
           node_type := "named_trailhead", priority := 50 }

/-- The synthetic station node of `add_trailheads` pass 2
(lines 588–605). -/
def mkSyntheticTrailhead (newId name : String) (qlon qlat : ℚ) (park : Bool) : Node :=
  { id := newId, lon := qlon, lat := qlat, station_id := newId,
    station_label := name, osm_named := true, node_type := "synthetic_trailhead",
    priority := 40, deg := 2, deg_in := 1, deg_out := 1, has_parking := park }

/-- The label rewrite of `add_amenities` (lines 1089–1097): icons prepended
to the base label; when the result is empty `station_id` is set to make the
node visible — neither `node_type` nor `priority` is touched. -/
def amenityApplyLabel (iconStr base : String) (n : Node) : Node :=
  let newLabel := if base ≠ "" then iconStr ++ " " ++ base else iconStr
  let n1 := { n with station_label := newLabel }
  if sstrip n1.station_label = "" then { n1 with station_id := n1.id } else n1

/-- The priority/type invariant: whenever the node's current type is in the
priority table, the stored priority is exactly the table value. -/
def priOk (n : Node) : Prop :=
  match NODE_PRIORITY n.node_type with
  | some v => n.priority = v
  | none => True

/-- Witness node for `claim_C4_priority_invariant`: an unnamed endpoint. -/
def witPriNode : Node :=
  { id := "w", lon := mkRat 0 1, lat := mkRat 0 1, node_type := "unnamed_endpoint",
    priority := 20, deg := 1 }

/-! ## C7: the route-name-only label clearing of `normalize_labels`
(source lines 649–671).

The shipped source is not executable: line 666 reads
`elif new_label.lower() in route_names_lower and not props.get("osm_named"):`
immediately after the plain assignment on line 661, and an `elif` cannot
follow a non-`if` statement — `build_map.py` is a `SyntaxError` and the
module cannot even be imported.  The comment above the line and the spec
state the intent (a plain `if`); the embedding below reads it that way. -/

/-- The per-node label update of `normalize_labels`, with line 666 read as
the intended `if`.  Skips unlabelled and rail nodes; normalizes; clears the
result when it case-insensitively equals a route name and the node is not
externally named; writes back only when changed. -/
def normalizeLabelsNodeStep (routeNames : List Str) (n : Node) : Node :=
  let oldLabel := pyStrip n.station_label.toList
  if oldLabel = [] then n
  else if n.node_type = "rail_station" then n
  else
    let normalized := normalizeLabel oldLabel routeNames
    let newLabel :=
      if routeNames.any (fun r => ciStrEq normalized r) && !n.osm_named
      then [] else normalized
    if newLabel ≠ oldLabel then { n with station_label := newLabel.asString } else n

/-- Witness node for C7: a bare endpoint auto-labelled with a route name. -/
def witC7Node : Node :=
  { id := "w7", lon := mkRat 0 1, lat := mkRat 0 1, station_id := "w7",
    station_label := "Chester Valley Trail", node_type := "unnamed_endpoint",
    priority := 20, deg := 1 }

/-! ## Stage 2b: `merge_rail_into_trails` (source lines 218–354). -/

/-- `RAIL_STATION_MERGE_DIST ** 2` — the threshold for squared distances. -/
def RAIL_MERGE_SQ : ℚ := qMul RAIL_STATION_MERGE_DIST RAIL_STATION_MERGE_DIST

/-- One iteration of the nearest-trail-node scan (lines 282–289): skip ids
already absorbed (`remap`), improve the best on strictly smaller squared
distance. -/
def nearestStep (remap : List (String × String)) (rlon rlat : ℚ)
    (best : Option (String × ℚ)) (tp : Node) : Option (String × ℚ) :=
  if (remap.lookup tp.id).isSome then best
  else
    match best with
    | none => some (tp.id, distSq rlon rlat tp.lon tp.lat)
    | some (bid, bd) =>
        if distSq rlon rlat tp.lon tp.lat < bd then
          some (tp.id, distSq rlon rlat tp.lon tp.lat)
        else some (bid, bd)

/-- The nearest-trail-node scan of merge step 4 (lines 281–289): iterate the
trail points in order.  Returns `(best_trail_id, best_dist_sq)`. -/
def nearestAvailTrail (remap : List (String × String)) (pts : List Node)
    (rlon rlat : ℚ) : Option (String × ℚ) :=
  pts.foldl (nearestStep remap rlon rlat) none

/-- Processing one rail station (lines 278–298): absorb the nearest
available trail node when strictly within the merge distance. -/
def processRailStation (pts : List Node) (remap : List (String × String))
    (r : Node) : List (String × String) :=
  match nearestAvailTrail remap pts r.lon r.lat with
  | some (tid, d2) => if d2 < RAIL_MERGE_SQ then remap ++ [(tid, r.id)] else remap
  | none => remap

/-- The full greedy absorption over the rail stations in input order. -/
def buildRemap (pts : List Node) (rails : List Node) : List (String × String) :=
  rails.foldl (processRailStation pts) []

/-- Coordinates of the rail point with a given id
(`next(r for r in rail_points if ...)`, lines 313–315). -/
def railCoordsOf (rails : List Node) (nid : String) : Option (ℚ × ℚ) :=
  (rails.find? (fun r => r.id == nid)).map (fun r => (r.lon, r.lat))

/-- Re-pointing one edge (lines 300–318): for each of `from`/`to`, if the
referenced id was absorbed, replace it by the rail id and overwrite the
first/last polyline coordinate with the rail station's position. -/
def repointEdge (rails : List Node) (remap : List (String × String)) (e : Edge) : Edge :=
  let e1 :=
    match remap.lookup e.fromId with
    | some nid =>
        match railCoordsOf rails nid with
        | some c => { e with fromId := nid, coords := e.coords.set 0 c }
        | none => { e with fromId := nid }
    | none => e
  match remap.lookup e1.toId with
  | some nid =>
      match railCoordsOf rails nid with
      | some c => { e1 with toId := nid, coords := e1.coords.set (e1.coords.length - 1) c }
      | none => { e1 with toId := nid }
  | none => e1

/-- Hiding the absorbed trail nodes (lines 320–328). -/
def hideIfAbsorbed (remap : List (String × String)) (p : Node) : Node :=
  if (remap.lookup p.id).isSome then hideAbsorbed p else p

/-- Classification of a feature (merge step 3). -/
def classifyFeat (f : Feat) : Feat :=
  match f with
  | .pt n => .pt (applyClassify n)
  | .ln e => .ln e

/-- The Point nodes of a feature list, in order. -/
def featPoints (fs : List Feat) : List Node :=
  fs.filterMap fun f => match f with | .pt n => some n | .ln _ => none

/-- The whole of `merge_rail_into_trails` on a feature collection: prepare
the rail features, classify the trail points, build the greedy remap,
re-point the trail edges, hide the absorbed nodes, and append
`rail_points + features + rail_edges` (step 5, lines 330–332). -/
def mergeRailIntoTrails (feats rails : List Feat) : List Feat :=
  let railPts := (featPoints rails).map prepRailPoint
  let railEdges := (rails.filterMap fun f =>
    match f with | .ln e => some (prepRailEdge e) | .pt _ => none)
  let feats1 := feats.map classifyFeat
  let remap := buildRemap (featPoints feats1) railPts
  let feats2 := feats1.map fun f =>
    match f with
    | .ln e => .ln (repointEdge railPts remap e)
    | .pt n => .pt (hideIfAbsorbed remap n)
  railPts.map Feat.pt ++ feats2 ++ railEdges.map Feat.ln

/-- Witness trail node for C2: an unnamed endpoint at the origin. -/
def witC2Trail : Node :=
  { id := "t1", lon := mkRat 0 1, lat := mkRat 0 1,
    node_type := "unnamed_endpoint", priority := 20, deg := 1 }

/-- Witness rail station for C2, 0.0015° away (prefixed id). -/
def witC2Rail : Node :=
  { id := "rail_s1", lon := mkRat 15 10000, lat := mkRat 0 1,
    station_id := "rail_s1", station_label := "Norristown TC",
    node_type := "rail_station", priority := 100 }

/-- Witness edge for C2, terminating at the trail node. -/
def witC2Edge : Edge :=
  { fromId := "t1", toId := "t9",
    coords := [(mkRat 0 1, mkRat 0 1), (mkRat 1 100, mkRat 0 1)], lines := [] }

/-! ## Stage 3d: `add_amenities` (source lines 922–1102). -/

/-- One amenity observation, reduced to the tag fields the pass reads
(elements without coordinates are skipped upstream and never reach the
loop). -/
structure AmenElem where
  amenity : String := ""
  tourism : String := ""
  information : String := ""
  name : String := ""
  lon : ℚ
  lat : ℚ
deriving Repr, DecidableEq

/-- The icon classification (lines 1003–1014): returns `(icon, icon_type)`
or `none` for an unrecognised element. -/
def amenIcon (e : AmenElem) : Option (String × String) :=
  if e.amenity = "bicycle_repair_station" then some ("🔧️", "repair")
  else if e.tourism = "information" ∧ e.information = "map" then some ("ℹ️", "map")
  else if e.amenity = "drinking_water" then some ("🚰️", "water")
  else if e.amenity = "toilets" then some ("🚻️", "toilets")
  else if e.amenity = "parking" then some ("🅿️", "parking")
  else none

/-- Mutable state of the amenity loop: icons per node id, placed
coordinates per icon type, fallback name per node id. -/
structure AmenState where
  nodeIcons : List (String × List String)
  placed : List (String × List (ℚ × ℚ))
  nodeAmenityName : List (String × String)
deriving Repr, DecidableEq

/-- In-place association update (Python dict update semantics). -/
def assocUpdate {α : Type _} (m : List (String × α)) (k : String)
    (f : Option α → α) : List (String × α) :=
  match m with
  | [] => [(k, f none)]
  | (k', v) :: rest =>
      if k' = k then (k', f (some v)) :: rest
      else (k', v) :: assocUpdate rest k f

/-- `node_icons.setdefault(nid, set()).add(icon)`. -/
def addIcon (m : List (String × List String)) (k icon : String) :
    List (String × List String) :=
  assocUpdate m k fun o =>
    match o with
    | none => [icon]
    | some l => if icon ∈ l then l else l ++ [icon]

/-- `placed.setdefault(ty, []).append((lat, lon))`. -/
def addPlaced (m : List (String × List (ℚ × ℚ))) (ty : String) (c : ℚ × ℚ) :
    List (String × List (ℚ × ℚ)) :=
  assocUpdate m ty fun o =>
    match o with
    | none => [c]
    | some l => l ++ [c]

/-- `node_amenity_name[bid] = name`. -/
def assocSet (m : List (String × String)) (k v : String) : List (String × String) :=
  assocUpdate m k fun _ => v

/-- `AMENITY_MIN_SPACING ** 2`. -/
def AMENITY_SPACING_SQ : ℚ := qMul AMENITY_MIN_SPACING AMENITY_MIN_SPACING

/-- The minimum-spacing check (lines 1017–1019): blocked when any earlier
placement of the same type lies strictly within the spacing radius. -/
def spacingBlocked (placed : List (String × List (ℚ × ℚ))) (ty : String)
    (lat lon : ℚ) : Bool :=
  match placed.lookup ty with
  | some l => l.any fun p => distSq lat lon p.1 p.2 < AMENITY_SPACING_SQ
  | none => false

/-- Nearest graph node by squared distance, first wins ties
(lines 1029–1034). -/
def nearestPoint (points : List Node) (lon lat : ℚ) : Option (String × ℚ) :=
  points.foldl
    (fun best p =>
      match best with
      | none => some (p.id, distSq lon lat p.lon p.lat)
      | some (bid, bd) =>
          if distSq lon lat p.lon p.lat < bd then
            some (p.id, distSq lon lat p.lon p.lat)
          else some (bid, bd))
    none

/-- The parking consolidation scan (lines 1041–1055): nearest node already
carrying icons, skipping nodes whose icon set is exactly {🅿️}. -/
def nearestAmenityNode (points : List Node) (nodeIcons : List (String × List String))
    (lon lat : ℚ) : Option (String × ℚ) :=
  points.foldl
    (fun best p =>
      match nodeIcons.lookup p.id with
      | none => best
      | some icons =>
          if icons = ["🅿️"] then best
          else
            match best with
            | none => some (p.id, distSq lon lat p.lon p.lat)
            | some (bid, bd) =>
                if distSq lon lat p.lon p.lat < bd then
                  some (p.id, distSq lon lat p.lon p.lat)
                else some (bid, bd))
    none

/-- The squared snap radius: parking uses the larger trailhead-match
distance (line 1028). -/
def amenSnapSq (ty : String) : ℚ :=
  if ty = "parking" then qMul TRAILHEAD_MATCH_DIST TRAILHEAD_MATCH_DIST
  else qMul AMENITY_MATCH_DIST AMENITY_MATCH_DIST

/-- Target selection (lines 1029–1057): plain nearest node, except that a
parking observation prefers a node already carrying non-parking icons when
one lies within the snap radius. -/
def amenBest (points : List Node) (nodeIcons : List (String × List String))
    (ty : String) (lon lat : ℚ) : Option (String × ℚ) :=
  if ty = "parking" then
    match nearestAmenityNode points nodeIcons lon lat with
    | some (aid, ad) =>
        if ad ≤ amenSnapSq ty then some (aid, ad) else nearestPoint points lon lat
    | none => nearestPoint points lon lat
  else nearestPoint points lon lat

/-- Recording the amenity's own name for label fallback (lines 1073–1075):
stored when non-empty and the node has no name yet, or always for
parking. -/
def amenRecordName (m : List (String × String)) (bid ty nm : String) :
    List (String × String) :=
  if sstrip nm ≠ "" ∧ ((m.lookup bid).isNone ∨ ty = "parking")
  then assocSet m bid (sstrip nm) else m

/-- One iteration of the amenity loop (lines 992–1076): classify, apply the
minimum-spacing rule, select a snap target, accept when within the snap
radius, record the icon, placement and name. -/
def amenStep (points : List Node) (st : AmenState) (e : AmenElem) : AmenState :=
  match amenIcon e with
  | none => st
  | some (icon, ty) =>
      if spacingBlocked st.placed ty e.lat e.lon then st
      else
        match amenBest points st.nodeIcons ty e.lon e.lat with
        | none => st
        | some (bid, bd) =>
            if amenSnapSq ty < bd then st
            else
              { nodeIcons := addIcon st.nodeIcons bid icon,
                placed := addPlaced st.placed ty (e.lat, e.lon),
                nodeAmenityName := amenRecordName st.nodeAmenityName bid ty e.name }

/-- Pre-seeding from `has_parking` (lines 984–986). -/
def amenInitState (points : List Node) : AmenState :=
  { nodeIcons := points.foldl
      (fun m p => if p.has_parking then addIcon m p.id "🅿️" else m) [],
    placed := [], nodeAmenityName := [] }

/-- Parking elements are processed last (lines 971–973). -/
def amenReorder (elems : List AmenElem) : List AmenElem :=
  elems.filter (fun e => !(e.amenity == "parking")) ++
    elems.filter (fun e => e.amenity == "parking")

/-- The amenity fold over a processing sequence. -/
def amenRun (points : List Node) (elems : List AmenElem) : AmenState :=
  elems.foldl (amenStep points) (amenInitState points)

/-- `_ICON_ORDER`. -/
def ICON_ORDER : List String := ["🚻️", "🚰️", "🔧️", "ℹ️", "🅿️"]

/-- The final label assembly (lines 1078–1098): icons in `_ICON_ORDER`,
then the station label or the recorded amenity-name fallback. -/
def amenApplyIcons (st : AmenState) (pts : List Node) : List Node :=
  pts.map fun n =>
    match st.nodeIcons.lookup n.id with
    | none => n
    | some icons =>
        let ordered := ICON_ORDER.filter (fun ic => icons.contains ic)
        if ordered = [] then n
        else
          let base :=
            if sstrip n.station_label ≠ "" then sstrip n.station_label
            else ((st.nodeAmenityName.lookup n.id).getD "")
          amenityApplyLabel (String.intercalate " " ordered) base n

/-- The whole of `add_amenities` after element fetch: reorder, fold, apply
icons to the Point features. -/
def addAmenities (pts : List Node) (elems : List AmenElem) : List Node :=
  amenApplyIcons (amenRun pts (amenReorder elems)) pts

/-- Witness points and elements for C9: two drinking-water observations
0.0015° apart (minimum spacing 0.002°), a trail node at the origin. -/
def witC9Node : Node :=
  { id := "n0", lon := mkRat 0 1, lat := mkRat 0 1,
    node_type := "unnamed_endpoint", priority := 20, deg := 1 }

/-- First water observation, at the origin. -/
def witC9Water1 : AmenElem :=
  { amenity := "drinking_water", lon := mkRat 0 1, lat := mkRat 0 1 }

/-- Second water observation, 0.0015° east. -/
def witC9Water2 : AmenElem :=
  { amenity := "drinking_water", lon := mkRat 15 10000, lat := mkRat 0 1 }

/-! ## Stage 3 pass 2: synthetic trailhead insertion by edge splitting
(`add_trailheads` pass 2, source lines 541–615, with
`_project_onto_segment` lines 423–436 and `_nearest_edge` lines 439–461)

Distances are embedded squared throughout: the source compares
`math.sqrt(s) < math.sqrt(s')` values, and `sqrt` is strictly monotone on
nonnegatives, so every comparison is reproduced exactly on the squares. -/

/-- Division on `ℚ` in kernel-evaluable form (the library `/` on `ℚ` is
`@[irreducible]`). -/
def qDiv (a b : ℚ) : ℚ :=
  if 0 ≤ b.num then mkRat (a.num * (b.den : Int)) (a.den * b.num.toNat)
  else mkRat (-(a.num * (b.den : Int))) (a.den * (-b.num).toNat)

/-- `TRAILHEAD_INSERT_DIST ** 2`, the threshold all pass-2 squared
distances are compared against. -/
def TRAILHEAD_INSERT_SQ : ℚ := qMul TRAILHEAD_INSERT_DIST TRAILHEAD_INSERT_DIST

/-- `_project_onto_segment` (lines 423–436), returning
`(proj_x, proj_y, t, dist²)` — the source returns the square root of the
last component. -/
def projectOntoSegment (px py ax ay bx byy : ℚ) : ℚ × ℚ × ℚ × ℚ :=
  let dx := qSub bx ax
  let dy := qSub byy ay
  let segLenSq := qAdd (qMul dx dx) (qMul dy dy)
  if segLenSq = 0 then (ax, ay, mkRat 0 1, distSq px py ax ay)
  else
    let t0 := qDiv (qAdd (qMul (qSub px ax) dx) (qMul (qSub py ay) dy)) segLenSq
    let t := if t0 < mkRat 0 1 then mkRat 0 1
             else if mkRat 1 1 < t0 then mkRat 1 1 else t0
    (qAdd ax (qMul t dx), qAdd ay (qMul t dy), t,
      distSq px py (qAdd ax (qMul t dx)) (qAdd ay (qMul t dy)))

/-- The inner segment scan of `_nearest_edge` (lines 454–460) on one
LineString's coordinate list, threading `(best_dist², best)`. -/
def nearestEdgeSegs (lon lat : ℚ) (fi : Nat) :
    Nat → List (ℚ × ℚ) → ℚ × Option (Nat × Nat × ℚ × ℚ × ℚ) →
    ℚ × Option (Nat × Nat × ℚ × ℚ × ℚ)
  | si, a :: b :: rest, (bestD, best) =>
      nearestEdgeSegs lon lat fi (si + 1) (b :: rest)
        (if (projectOntoSegment lon lat a.1 a.2 b.1 b.2).2.2.2 < bestD then
          ((projectOntoSegment lon lat a.1 a.2 b.1 b.2).2.2.2,
           some (fi, si, (projectOntoSegment lon lat a.1 a.2 b.1 b.2).2.2.1,
                 (projectOntoSegment lon lat a.1 a.2 b.1 b.2).1,
                 (projectOntoSegment lon lat a.1 a.2 b.1 b.2).2.1))
        else (bestD, best))
  | _, _, st => st

/-- The feature scan of `_nearest_edge` (lines 450–460): LineStrings only,
indexed enumeration. -/
def nearestEdgeAux (lon lat : ℚ) :
    Nat → List Feat → ℚ × Option (Nat × Nat × ℚ × ℚ × ℚ) →
    ℚ × Option (Nat × Nat × ℚ × ℚ × ℚ)
  | _, [], st => st
  | fi, f :: rest, st =>
      nearestEdgeAux lon lat (fi + 1) rest
        (match f with
         | .pt _ => st
         | .ln e => nearestEdgeSegs lon lat fi 0 e.coords st)

/-- `_nearest_edge` (lines 439–461): `(feature_index, segment_index, t,
proj_lon, proj_lat)` of the closest strictly-improving projection, or
`none`. -/
def nearestEdge (lon lat : ℚ) (features : List Feat) (maxDistSq : ℚ) :
    Option (Nat × Nat × ℚ × ℚ × ℚ) :=
  (nearestEdgeAux lon lat 0 features (maxDistSq, none)).2

/-- The `rail_nearby` guard (lines 549–555): some rail-station Point lies
strictly within `TRAILHEAD_INSERT_DIST`. -/
def railNearby (features : List Feat) (lon lat : ℚ) : Bool :=
  features.any fun f =>
    match f with
    | .pt n => n.node_type == "rail_station" &&
        decide (distSq lon lat n.lon n.lat < TRAILHEAD_INSERT_SQ)
    | .ln _ => false

/-- One unmatched pass-1 candidate `(osm_id, name, lon, lat, is_park)`
(line 537); the integer OSM id is embedded as its decimal string. -/
structure ThElem where
  osm_id : String
  name : String
  lon : ℚ
  lat : ℚ
  is_park : Bool
deriving Repr, DecidableEq

/-- One iteration of the pass-2 loop (lines 546–609) up to the guards:
`some (fi, edge1, edge2, point)` when the candidate fires, `none` when any
guard skips it.  The index `fi` delivered by `nearestEdge` always points at
a LineString, so the fallback match arm is dead. -/
def th2Fire (features : List Feat) (split : List Nat) (u : ThElem) :
    Option (Nat × Edge × Edge × Node) :=
  if railNearby features u.lon u.lat then none
  else
    match nearestEdge u.lon u.lat features TRAILHEAD_INSERT_SQ with
    | none => none
    | some (fi, si, _, qlon, qlat) =>
        if fi ∈ split then none
        else
          match features[fi]? with
          | some (Feat.ln e) =>
              if (e.coords.take (si + 1) ++ [(qlon, qlat)]).length < 2 ∨
                 ((qlon, qlat) :: e.coords.drop (si + 1)).length < 2 then none
              else
                some (fi,
                  { fromId := e.fromId, toId := "th_" ++ u.osm_id,
                    coords := e.coords.take (si + 1) ++ [(qlon, qlat)],
                    lines := e.lines },
                  { fromId := "th_" ++ u.osm_id, toId := e.toId,
                    coords := (qlon, qlat) :: e.coords.drop (si + 1),
                    lines := e.lines },
                  mkSyntheticTrailhead ("th_" ++ u.osm_id) u.name qlon qlat
                    u.is_park)
          | _ => none

/-- The pass-2 loop body threading `(split_edge_indices, new_items)`
(lines 543–609); the Python set of indices is a duplicate-free list. -/
def th2Step (features : List Feat)
    (st : List Nat × List (Nat × Edge × Edge × Node)) (u : ThElem) :
    List Nat × List (Nat × Edge × Edge × Node) :=
  match th2Fire features st.1 u with
  | none => st
  | some it => (st.1 ++ [it.1], st.2 ++ [it])

/-- `new_items` after the whole pass-2 loop. -/
def th2Items (features : List Feat) (elems : List ThElem) :
    List (Nat × Edge × Edge × Node) :=
  (elems.foldl (th2Step features) ([], [])).2

/-- The three features appended for one new item (line 615):
`[pt, e1, e2]`. -/
def itemFeats (it : Nat × Edge × Edge × Node) : List Feat :=
  [Feat.pt it.2.2.2, Feat.ln it.2.1, Feat.ln it.2.2.1]

/-- The pass-2 reassembly (lines 611–615): when any item fired, drop the
consumed original edges by index and append each item's `[pt, e1, e2]`. -/
def addTrailheadsPass2 (features : List Feat) (elems : List ThElem) :
    List Feat :=
  let items := th2Items features elems
  if items = [] then features
  else
    (features.enum.filter fun p =>
        !((items.map fun it => it.1).contains p.1)).map (fun p => p.2)
      ++ items.flatMap itemFeats

/-- What pass 2 promises for one fired item: the consumed feature is the
LineString at its recorded index, the two replacement edges run
end-to-end through the synthetic node's id, carry the original line set,
have at least two coordinates each, and share the projection point as the
split endpoint. -/
def th2ItemOk (features : List Feat) (it : Nat × Edge × Edge × Node) : Prop :=
  ∃ e : Edge, features[it.1]? = some (Feat.ln e) ∧
    it.2.1.fromId = e.fromId ∧ it.2.1.toId = it.2.2.2.id ∧
    it.2.2.1.fromId = it.2.2.2.id ∧ it.2.2.1.toId = e.toId ∧
    it.2.1.lines = e.lines ∧ it.2.2.1.lines = e.lines ∧
    2 ≤ it.2.1.coords.length ∧ 2 ≤ it.2.2.1.coords.length ∧
    it.2.1.coords.getLast? = some (it.2.2.2.lon, it.2.2.2.lat) ∧
    it.2.2.1.coords.head? = some (it.2.2.2.lon, it.2.2.2.lat)

/-- Witness geometry for C10: one horizontal edge `A → B` from the origin
to (0.01, 0) and one unmatched trailhead candidate 0.0005° above its
midpoint line at lon 0.005. -/
def witC10Edge : Edge :=
  { fromId := "A", toId := "B",
    coords := [(mkRat 0 1, mkRat 0 1), (mkRat 1 100, mkRat 0 1)],
    lines := [{ lid := "L1", label := "Trail" }] }

/-- Witness feature list for C10. -/
def witC10Features : List Feat := [Feat.ln witC10Edge]

/-- Witness candidate for C10. -/
def witC10Elem : ThElem :=
  { osm_id := "7", name := "Foo Trailhead",
    lon := mkRat 5 1000, lat := mkRat 5 10000, is_park := false }

/-- The item pass 2 produces on the C10 witness input. -/
def witC10Item : Nat × Edge × Edge × Node :=
  (0,
   { fromId := "A", toId := "th_7",
     coords := [(mkRat 0 1, mkRat 0 1), (mkRat 5 1000, mkRat 0 1)],
     lines := [{ lid := "L1", label := "Trail" }] },
   { fromId := "th_7", toId := "B",
     coords := [(mkRat 5 1000, mkRat 0 1), (mkRat 1 100, mkRat 0 1)],
     lines := [{ lid := "L1", label := "Trail" }] },
   mkSyntheticTrailhead "th_7" "Foo Trailhead" (mkRat 5 1000) (mkRat 0 1) false)

/-! ## Feature-ordering invariant (C8)

"Points first, then edges" — a feature list satisfies the renderer
convention exactly when it decomposes as a block of Points followed by a
block of LineStrings. -/

/-- Every Point feature precedes every LineString feature. -/
def pointsFirst (fs : List Feat) : Prop :=
  ∃ (ps : List Node) (ls : List Edge), fs = ps.map Feat.pt ++ ls.map Feat.ln

/-- The LineString edges of a feature list, in order. -/
def featEdges (fs : List Feat) : List Edge :=
  fs.filterMap fun f => match f with | .ln e => some e | .pt _ => none

/-- Counterexample geometry for C8: two LineStrings, a trailhead candidate
that splits the first one. -/
def cexC8EdgeA : Edge :=
  { fromId := "A", toId := "B",
    coords := [(mkRat 0 1, mkRat 0 1), (mkRat 1 100, mkRat 0 1)], lines := [] }

/-- The second, far-away LineString, kept intact by pass 2. -/
def cexC8EdgeB : Edge :=
  { fromId := "C", toId := "D",
    coords := [(mkRat 1 1, mkRat 0 1), (mkRat 101 100, mkRat 0 1)], lines := [] }

/-- Counterexample feature list for C8. -/
def cexC8Features : List Feat := [Feat.ln cexC8EdgeA, Feat.ln cexC8EdgeB]

/-- The trailhead candidate that fires on the first edge. -/
def cexC8Elem : ThElem :=
  { osm_id := "9", name := "Cex Trailhead",
    lon := mkRat 5 1000, lat := mkRat 5 10000, is_park := false }

/-- The synthetic node pass 2 inserts on the C8 counterexample input. -/
def cexC8Pt : Node :=
  mkSyntheticTrailhead "th_9" "Cex Trailhead" (mkRat 5 1000) (mkRat 0 1) false

/-- First replacement half-edge on the C8 counterexample input. -/
def cexC8E1 : Edge :=
  { fromId := "A", toId := "th_9",
    coords := [(mkRat 0 1, mkRat 0 1), (mkRat 5 1000, mkRat 0 1)], lines := [] }

/-- Second replacement half-edge on the C8 counterexample input. -/
def cexC8E2 : Edge :=
  { fromId := "th_9", toId := "B",
    coords := [(mkRat 5 1000, mkRat 0 1), (mkRat 1 100, mkRat 0 1)], lines := [] }

/-- Witness for `claim_C8_amended`: a small points-first trail collection
stays points-first through the rail merge. -/
def witC8TrailNode : Node :=
  { id := "t1", lon := mkRat 0 1, lat := mkRat 0 1,
    node_type := "unnamed_endpoint", priority := 20 }

/-- Witness trail edge for C8. -/
def witC8TrailEdge : Edge :=
  { fromId := "t1", toId := "t2",
    coords := [(mkRat 0 1, mkRat 0 1), (mkRat 1 1, mkRat 0 1)], lines := [] }

/-- Witness rail node for C8. -/
def witC8RailNode : Node :=
  { id := "r1", lon := mkRat 5 1, lat := mkRat 5 1,
    station_label := "Main St", node_type := "station" }

/-- Witness rail edge for C8. -/
def witC8RailEdge : Edge :=
  { fromId := "r1", toId := "r2",
    coords := [(mkRat 5 1, mkRat 5 1), (mkRat 6 1, mkRat 5 1)], lines := [] }

/-! ## Stage 3c: `merge_nearby_endpoints` (source lines 726–912)

Pass 1 merges degree-1 endpoints into labelled stations on disjoint line
sets; pass 2 cascades outward from each merge target for at most 3 hops.
Python dicts are embedded as insertion-ordered association lists, Python
sets as insertion-ordered duplicate-free lists (the claim quantifies over
the absorb events, so the arbitrary set-iteration order only picks which
faithful order the embedding fixes).  Feature ids are unique in the
pipeline, so the id-indexed aliasing dict `id_to_point` is embedded as an
id lookup (last occurrence wins, as for a Python dict build) and `_hide`
updates the looked-up id.  The pass-2 absorb log line (absorbed id,
target id) is recorded as the pass's event list.  Distances are embedded
squared, as before. -/

/-- Python `set.add` on an insertion-ordered duplicate-free list. -/
def setInsert (l : List String) (s : String) : List String :=
  if s ∈ l then l else l ++ [s]

/-- Python `set.update`. -/
def setUnion (l : List String) (xs : List String) : List String :=
  xs.foldl setInsert l

/-- The non-empty line ids of one edge (lines 747–751). -/
def lineIdsOf (e : Edge) : List String :=
  e.lines.foldl (fun acc ln => if ln.lid ≠ "" then setInsert acc ln.lid else acc) []

/-- `node_lines`: node id → set of line ids from the edges
(lines 742–755). -/
def nodeLines (fs : List Feat) : List (String × List String) :=
  fs.foldl
    (fun m f =>
      match f with
      | .pt _ => m
      | .ln e =>
          let m1 := if e.fromId ≠ "" then
              assocUpdate m e.fromId (fun o => setUnion (o.getD []) (lineIdsOf e))
            else m
          if e.toId ≠ "" then
            assocUpdate m1 e.toId (fun o => setUnion (o.getD []) (lineIdsOf e))
          else m1)
    []

/-- `node_deg`: edge-endpoint reference counts (lines 758–764). -/
def nodeDeg (fs : List Feat) : List (String × Nat) :=
  fs.foldl
    (fun m f =>
      match f with
      | .pt _ => m
      | .ln e =>
          let m1 := if e.fromId ≠ "" then
              assocUpdate m e.fromId (fun o => o.getD 0 + 1)
            else m
          if e.toId ≠ "" then assocUpdate m1 e.toId (fun o => o.getD 0 + 1)
          else m1)
    []

/-- `id_to_point` lookup (lines 736–739): last Point with the id wins, as
for a Python dict built by assignment. -/
def lookupPoint (fs : List Feat) (nid : String) : Option Node :=
  fs.foldl
    (fun acc f =>
      match f with
      | .pt n => if n.id = nid then some n else acc
      | .ln _ => acc)
    none

/-- The degree-1 endpoints, in `node_deg` insertion order
(lines 767–770). -/
def endpointIds (fs : List Feat) : List String :=
  (nodeDeg fs).filterMap fun p =>
    if p.2 = 1 ∧ (lookupPoint fs p.1).isSome then some p.1 else none

/-- The candidate targets (lines 773–778).  The loop later reads only the
id, node_type and coordinates through these feature references, none of
which the pass mutates, so the reference list is embedded as a value
snapshot. -/
def labelledPts (fs : List Feat) : List Node :=
  fs.filterMap fun f =>
    match f with
    | .pt n =>
        if sstrip n.station_label ≠ "" ∨ n.node_type = "rail_station"
        then some n else none
    | .ln _ => none

/-- `ENDPOINT_MERGE_DIST ** 2`. -/
def ENDPOINT_MERGE_SQ : ℚ := qMul ENDPOINT_MERGE_DIST ENDPOINT_MERGE_DIST

/-- `_repoint` on one edge (lines 780–792): both endpoint checks run in
sequence on the same edge.  Assigning into an empty coordinate list would
raise in Python; `List.set` is a no-op there (polylines always have ≥ 2
points). -/
def repointOne (oldId newId : String) (nc : ℚ × ℚ) (e : Edge) : Edge :=
  let e1 := if e.fromId = oldId then
      { e with fromId := newId, coords := e.coords.set 0 nc }
    else e
  if e1.toId = oldId then
    { e1 with toId := newId, coords := e1.coords.set (e1.coords.length - 1) nc }
  else e1

/-- `_repoint` on one feature. -/
def repointFeat (oldId newId : String) (nc : ℚ × ℚ) : Feat → Feat
  | .pt n => .pt n
  | .ln e => .ln (repointOne oldId newId nc e)

/-- `_repoint` over the feature list. -/
def repointAll (fs : List Feat) (oldId newId : String) (nc : ℚ × ℚ) :
    List Feat :=
  fs.map (repointFeat oldId newId nc)

/-- `_hide` on one feature (lines 794–801). -/
def hideFeat (nid : String) : Feat → Feat
  | .pt n => .pt (if n.id = nid then hideNode n else n)
  | .ln e => .ln e

/-- `_hide` over the feature list. -/
def hidePoint (fs : List Feat) (nid : String) : List Feat :=
  fs.map (hideFeat nid)

/-- `_edge_neighbors` (lines 803–814). -/
def edgeNeighbors (fs : List Feat) (nid : String) : List String :=
  fs.foldl
    (fun acc f =>
      match f with
      | .pt _ => acc
      | .ln e =>
          let acc1 := if e.fromId = nid ∧ e.toId ≠ "" then setInsert acc e.toId
            else acc
          if e.toId = nid ∧ e.fromId ≠ "" then setInsert acc1 e.fromId
          else acc1)
    []

/-- The best-target scan of pass 1 (lines 832–848): skip self, skip
non-rail targets sharing a line, strict-improvement nearest scan on
squared distances. -/
def bestTarget (nls : List (String × List String)) (lab : List Node)
    (epId : String) (epLines : List String) (epLon epLat : ℚ) :
    Option (String × ℚ) :=
  lab.foldl
    (fun best t =>
      if t.id = epId then best
      else if t.node_type ≠ "rail_station" ∧
          epLines.any (fun x => ((nls.lookup t.id).getD []).contains x) then best
      else
        match best with
        | none => some (t.id, distSq epLon epLat t.lon t.lat)
        | some (bid, bd) =>
            if distSq epLon epLat t.lon t.lat < bd then
              some (t.id, distSq epLon epLat t.lon t.lat)
            else some (bid, bd))
    none

/-- One pass-1 iteration (lines 820–862), threading
`(features, merged_targets)`. -/
def pass1Step (nls : List (String × List String)) (lab : List Node)
    (st : List Feat × List String) (epId : String) :
    List Feat × List String :=
  match lookupPoint st.1 epId with
  | none => st
  | some ep =>
      if ep.node_type = "rail_station" then st
      else
        match bestTarget nls lab epId ((nls.lookup epId).getD [])
            ep.lon ep.lat with
        | none => st
        | some (bid, bdSq) =>
            if ENDPOINT_MERGE_SQ < bdSq then st
            else
              match lookupPoint st.1 bid with
              | none => st
              | some tgt =>
                  (hidePoint (repointAll st.1 epId bid (tgt.lon, tgt.lat)) epId,
                   setInsert st.2 bid)

/-- Pass 1 (lines 816–862): returns the mutated features and
`merged_targets`. -/
def mergePass1 (fs : List Feat) : List Feat × List String :=
  (endpointIds fs).foldl (pass1Step (nodeLines fs) (labelledPts fs)) (fs, [])

/-- The cascade walk state: current features, the absorb-event log
`(target id, absorbed id)`, the visited set and the next frontier being
accumulated. -/
structure CascadeSt where
  feats : List Feat
  events : List (String × String)
  visited : List String
  nextFrontier : List String

/-- One neighbour visit of the cascade (lines 886–907). -/
def cascadeAbsorbNbr (nls : List (String × List String)) (tId : String)
    (tLon tLat : ℚ) (tLines : List String) (st : CascadeSt) (nbrId : String) :
    CascadeSt :=
  let vis := setInsert st.visited nbrId
  match lookupPoint st.feats nbrId with
  | none => { st with visited := vis }
  | some nbr =>
      if ENDPOINT_MERGE_SQ < distSq tLon tLat nbr.lon nbr.lat then
        { st with visited := vis }
      else if ((nls.lookup nbrId).getD []).any (fun x => tLines.contains x) then
        { st with visited := vis }
      else
        let fs1 := hidePoint (repointAll st.feats nbrId tId (tLon, tLat)) nbrId
        { feats := fs1,
          events := st.events ++ [(tId, nbrId)],
          visited := vis,
          nextFrontier := setUnion st.nextFrontier
            ((edgeNeighbors fs1 tId).filter fun x => !(vis.contains x)) }

/-- The bounded walk (lines 880–908): at most 3 rounds, stop on an empty
frontier. -/
def cascadeWalk (nls : List (String × List String)) (tId : String)
    (tLon tLat : ℚ) (tLines : List String) :
    Nat → CascadeSt → List String → List Feat × List (String × String)
  | 0, st, _ => (st.feats, st.events)
  | k + 1, st, frontier =>
      if frontier = [] then (st.feats, st.events)
      else
        let st1 := frontier.foldl (cascadeAbsorbNbr nls tId tLon tLat tLines)
          { st with nextFrontier := [] }
        cascadeWalk nls tId tLon tLat tLines k st1 st1.nextFrontier

/-- One merge target of the cascade pass (lines 872–908). -/
def cascadeTarget (nls : List (String × List String))
    (st : List Feat × List (String × String)) (tId : String) :
    List Feat × List (String × String) :=
  match lookupPoint st.1 tId with
  | none => st
  | some t =>
      cascadeWalk nls tId t.lon t.lat ((nls.lookup tId).getD []) 3
        { feats := st.1, events := st.2, visited := [tId], nextFrontier := [] }
        ((edgeNeighbors st.1 tId).filter fun x => !([tId].contains x))

/-- The whole of `merge_nearby_endpoints`: pass 1 then the cascade,
returning the features and the cascade's absorb-event log. -/
def mergeNearbyEndpoints (fs : List Feat) :
    List Feat × List (String × String) :=
  let nls := nodeLines fs
  let p1 := mergePass1 fs
  p1.2.foldl (cascadeTarget nls) (p1.1, [])

/-- The coordinates of the Point with a given id. -/
def ptCoordsOf (fs : List Feat) (nid : String) : Option (ℚ × ℚ) :=
  (lookupPoint fs nid).map fun n => (n.lon, n.lat)

/-- What the cascade guards guarantee for one absorb event, stated on the
input features: both nodes exist, the absorbed node lies within
`ENDPOINT_MERGE_DIST` of the target, and its line set is disjoint from
the target's original line set. -/
def cascadeEventOk (fs0 : List Feat) (ev : String × String) : Prop :=
  ∃ tc nc : ℚ × ℚ, ptCoordsOf fs0 ev.1 = some tc ∧ ptCoordsOf fs0 ev.2 = some nc ∧
    distSq tc.1 tc.2 nc.1 nc.2 ≤ ENDPOINT_MERGE_SQ ∧
    (((nodeLines fs0).lookup ev.2).getD []).all
      (fun x => !(((nodeLines fs0).lookup ev.1).getD []).contains x) = true

/-- The stripped station label of the Point with a given id. -/
def labelOfPt (fs : List Feat) (nid : String) : String :=
  match lookupPoint fs nid with
  | some n => sstrip n.station_label
  | none => ""

/-- C5 counterexample graph: labelled target T("Sta") at the origin on
line A; endpoint E at 0.001° on line B; unlabelled degree-2 interior node
M at 0.002° on line B; far nodes F and G.  Pass 1 merges E into T; the
cascade then absorbs the *unlabelled* M. -/
def cexC5T : Node :=
  { id := "T", lon := mkRat 0 1, lat := mkRat 0 1, station_id := "T",
    station_label := "Sta", node_type := "named_trailhead", priority := 50,
    osm_named := true, deg := 1 }

/-- C5 counterexample endpoint E. -/
def cexC5E : Node :=
  { id := "E", lon := mkRat 1 1000, lat := mkRat 0 1,
    node_type := "unnamed_endpoint", priority := 20, deg := 1 }

/-- C5 counterexample unlabelled interior node M. -/
def cexC5M : Node :=
  { id := "M", lon := mkRat 2 1000, lat := mkRat 0 1,
    node_type := "unnamed_interior", priority := 10, deg := 2 }

/-- C5 counterexample far endpoint F. -/
def cexC5F : Node :=
  { id := "F", lon := mkRat 2 100, lat := mkRat 0 1,
    node_type := "unnamed_endpoint", priority := 20, deg := 1 }

/-- C5 counterexample far endpoint G. -/
def cexC5G : Node :=
  { id := "G", lon := mkRat 0 1, lat := mkRat 2 100,
    node_type := "unnamed_endpoint", priority := 20, deg := 1 }

/-- C5 counterexample edge E–M on line B. -/
def cexC5E1 : Edge :=
  { fromId := "E", toId := "M",
    coords := [(mkRat 1 1000, mkRat 0 1), (mkRat 2 1000, mkRat 0 1)],
    lines := [{ lid := "B", label := "Trail B" }] }

/-- C5 counterexample edge M–F on line B. -/
def cexC5E2 : Edge :=
  { fromId := "M", toId := "F",
    coords := [(mkRat 2 1000, mkRat 0 1), (mkRat 2 100, mkRat 0 1)],
    lines := [{ lid := "B", label := "Trail B" }] }

/-- C5 counterexample edge T–G on line A. -/
def cexC5E3 : Edge :=
  { fromId := "T", toId := "G",
    coords := [(mkRat 0 1, mkRat 0 1), (mkRat 0 1, mkRat 2 100)],
    lines := [{ lid := "A", label := "Trail A" }] }

/-- C5 counterexample feature list. -/
def cexC5Feats : List Feat :=
  [Feat.pt cexC5T, Feat.pt cexC5E, Feat.pt cexC5M, Feat.pt cexC5F,
   Feat.pt cexC5G, Feat.ln cexC5E1, Feat.ln cexC5E2, Feat.ln cexC5E3]

/-! ## Theorems -/

theorem qMul_eq (a b : ℚ) : qMul a b = a * b := by
  have ha : ((a.den : ℚ)) ≠ 0 := by exact_mod_cast a.den_nz
  have hb : ((b.den : ℚ)) ≠ 0 := by exact_mod_cast b.den_nz
  rw [qMul, Rat.mkRat_eq_div]
  conv_rhs => rw [← Rat.num_div_den a, ← Rat.num_div_den b]
  push_cast
  field_simp

theorem qAdd_eq (a b : ℚ) : qAdd a b = a + b := by
  have ha : ((a.den : ℚ)) ≠ 0 := by exact_mod_cast a.den_nz
  have hb : ((b.den : ℚ)) ≠ 0 := by exact_mod_cast b.den_nz
  rw [qAdd, Rat.mkRat_eq_div]
  conv_rhs => rw [← Rat.num_div_den a, ← Rat.num_div_den b]
  push_cast
  field_simp

theorem qSub_eq (a b : ℚ) : qSub a b = a - b := by
  have ha : ((a.den : ℚ)) ≠ 0 := by exact_mod_cast a.den_nz
  have hb : ((b.den : ℚ)) ≠ 0 := by exact_mod_cast b.den_nz
  rw [qSub, Rat.mkRat_eq_div]
  conv_rhs => rw [← Rat.num_div_den a, ← Rat.num_div_den b]
  push_cast
  field_simp
  ring

theorem distSq_eq (x1 y1 x2 y2 : ℚ) :
    distSq x1 y1 x2 y2 = (x1 - x2) ^ 2 + (y1 - y2) ^ 2 := by
  rw [distSq, qAdd_eq, qMul_eq, qMul_eq, qSub_eq, qSub_eq, sq, sq]

theorem dedupDistSq_eq : dedupDistSq = (2 * TRAILHEAD_MATCH_DIST) ^ 2 := by
  rw [dedupDistSq, qMul_eq, qMul_eq, sq]
  norm_num [show (mkRat 2 1 : ℚ) = 2 by norm_num [Rat.mkRat_eq_div]]

theorem getElem?_some_lt {α : Type _} {l : List α} {i : Nat} {a : α}
    (h : l[i]? = some a) : i < l.length := by
  by_contra hge
  rw [List.getElem?_eq_none (Nat.le_of_not_lt hge)] at h
  exact Option.noConfusion h

theorem dedupCollide_iff (ni nj : Node) :
    dedupCollide ni nj = true ↔
      sstrip nj.station_label ≠ "" ∧
      slower (sstrip ni.station_label) = slower (sstrip nj.station_label) ∧
      distSq ni.lon ni.lat nj.lon nj.lat < dedupDistSq := by
  simp [dedupCollide, and_assoc]

theorem dedupCollide_eq_false_of_offClass {L : String} {ni nk : Node}
    (hL : slower (sstrip ni.station_label) = L) (hk : offClass L nk) :
    dedupCollide ni nk = false := by
  rw [Bool.eq_false_iff]
  intro hc
  rw [dedupCollide_iff] at hc
  rcases hk with hk | hk
  · exact hc.1 hk
  · exact hk (hc.2.1 ▸ hL)

theorem dedupInner_cases (pts : List Node) (i : Nat) (ni : Node)
    (hi : pts[i]? = some ni) :
    ∀ fuel j, dedupInner pts i fuel j = pts ∨
      ∃ j' nj', j ≤ j' ∧ pts[j']? = some nj' ∧ dedupCollide ni nj' = true ∧
        ((dedupDropJ ni nj' = true ∧
            dedupInner pts i fuel j = pts.set j' (clearLabel nj')) ∨
         (dedupDropJ ni nj' = false ∧
            dedupInner pts i fuel j = pts.set i (clearLabel ni))) := by
  intro fuel
  induction fuel with
  | zero => intro j; left; rfl
  | succ fuel ih =>
    intro j
    rcases hj : pts[j]? with _ | nj
    · left; simp [dedupInner, hi, hj]
    · by_cases hc : dedupCollide ni nj = true
      · right
        refine ⟨j, nj, le_refl _, hj, hc, ?_⟩
        by_cases hd : dedupDropJ ni nj = true
        · exact Or.inl ⟨hd, by simp [dedupInner, hi, hj, hc, hd]⟩
        · exact Or.inr ⟨Bool.eq_false_iff.mpr hd, by
            simp only [dedupInner, hi, hj, hc, if_true]
            rw [if_neg hd]⟩
      · have step : dedupInner pts i (fuel + 1) j = dedupInner pts i fuel (j + 1) := by
          simp only [dedupInner, hi, hj]
          rw [if_neg hc]
        rcases ih (j + 1) with h | ⟨j', nj', hle, hmem, hcol, hcase⟩
        · left; rw [step, h]
        · right; exact ⟨j', nj', le_trans (Nat.le_succ j) hle, hmem, hcol, by
            rw [step]; exact hcase⟩

theorem dedupInner_fire (pts : List Node) (i : Nat) (ni : Node)
    (hi : pts[i]? = some ni) :
    ∀ fuel j jf njf, j ≤ jf → jf < j + fuel → pts[jf]? = some njf →
      dedupCollide ni njf = true →
      (∀ k nk, j ≤ k → k < jf → pts[k]? = some nk → dedupCollide ni nk = false) →
      dedupInner pts i fuel j =
        if dedupDropJ ni njf then pts.set jf (clearLabel njf)
        else pts.set i (clearLabel ni) := by
  intro fuel
  induction fuel with
  | zero => intro j jf njf h1 h2 _ _ _; omega
  | succ fuel ih =>
    intro j jf njf h1 h2 hmem hcol hnone
    rcases Nat.eq_or_lt_of_le h1 with rfl | hlt
    · simp only [dedupInner, hi, hmem, hcol, if_true]
    · have hjlen : j < pts.length := by
        have := getElem?_some_lt hmem
        omega
      obtain ⟨nj, hnj⟩ : ∃ nj, pts[j]? = some nj :=
        ⟨pts[j], List.getElem?_eq_getElem hjlen⟩
      have hcf : dedupCollide ni nj = false := hnone j nj (le_refl _) hlt hnj
      have step : dedupInner pts i (fuel + 1) j = dedupInner pts i fuel (j + 1) := by
        simp only [dedupInner, hi, hnj]
        rw [if_neg (Bool.eq_false_iff.mp hcf)]
      rw [step]
      exact ih (j + 1) jf njf hlt (by omega) hmem hcol
        (fun k nk hk1 hk2 => hnone k nk (by omega) hk2)

/-- After the collision between the tracked pair has been resolved, the rest
of the outer loop never touches the surviving entry nor the cleared victim:
any later collision concerns a different (case-folded) label class. -/
theorem dedupOuter_post (L : String) (surv vict : Nat) (nsurv nvict : Node)
    (hS2 : slower (sstrip nsurv.station_label) = L) :
    ∀ fuel isc t, t[surv]? = some nsurv → t[vict]? = some (clearLabel nvict) →
      (∀ k nk, k ≠ surv → t[k]? = some nk → offClass L nk) →
      (dedupOuter fuel isc t)[surv]? = some nsurv ∧
      (dedupOuter fuel isc t)[vict]? = some (clearLabel nvict) := by
  intro fuel
  induction fuel with
  | zero => intro isc t h1 h2 _; exact ⟨h1, h2⟩
  | succ fuel ih =>
    intro isc t h1 h2 h3
    rcases hci : t[isc]? with _ | nc
    · simpa [dedupOuter, hci] using ⟨h1, h2⟩
    · by_cases hlab : sstrip nc.station_label = ""
      · have step : dedupOuter (fuel + 1) isc t = dedupOuter fuel (isc + 1) t := by
          simp [dedupOuter, hci, hlab]
        rw [step]; exact ih (isc + 1) t h1 h2 h3
      · have step : dedupOuter (fuel + 1) isc t =
            dedupOuter fuel (isc + 1) (dedupInner t isc t.length (isc + 1)) := by
          simp [dedupOuter, hci, hlab]
        rw [step]
        -- analyse what the inner loop did
        rcases dedupInner_cases t isc nc hci t.length (isc + 1) with hid |
          ⟨j', nj', hge, hmem, hcol, hcase⟩
        · rw [hid]; exact ih (isc + 1) t h1 h2 h3
        · rw [dedupCollide_iff] at hcol
          -- the current entry is not the survivor: otherwise the partner
          -- would be a second node of class L
          have hcns : isc ≠ surv ∨ (isc = surv ∧ False) := by
            by_cases hcs : isc = surv
            · right; refine ⟨hcs, ?_⟩
              have hj'S : j' ≠ surv := by omega
              have := h3 j' nj' hj'S hmem
              rcases this with hx | hx
              · exact hcol.1 hx
              · subst hcs
                rw [hci] at h1
                cases h1
                exact hx (hcol.2.1 ▸ hS2)
            · left; exact hcs
          rcases hcns with hcns | ⟨_, hF⟩
          · -- current entry off class L
            have hoff := h3 isc nc hcns hci
            have hncL : slower (sstrip nc.station_label) ≠ L := by
              rcases hoff with hx | hx
              · exact absurd hx hlab
              · exact hx
            -- the victim is never the survivor nor the cleared victim entry
            have hj'surv : j' ≠ surv := by
              intro hj's
              subst hj's
              rw [hmem] at h1
              cases h1
              exact hncL (hcol.2.1 ▸ hS2)
            have hj'vict : j' ≠ vict := by
              intro hj'v
              subst hj'v
              rw [hmem] at h2
              cases h2
              exact hcol.1 rfl
            have hisurv : isc ≠ surv := hcns
            have hivict : isc ≠ vict := by
              intro hiv
              subst hiv
              rw [hci] at h2
              cases h2
              exact hlab rfl
            have hj'len : j' < t.length := getElem?_some_lt hmem
            have hisclen : isc < t.length := getElem?_some_lt hci
            rcases hcase with ⟨_, heq⟩ | ⟨_, heq⟩
            · rw [heq]
              refine ih (isc + 1) _ ?_ ?_ ?_
              · rw [List.getElem?_set_ne hj'surv]; exact h1
              · rw [List.getElem?_set_ne hj'vict]; exact h2
              · intro k nk hk hke
                by_cases hkj : k = j'
                · subst hkj
                  rw [List.getElem?_set_self hj'len] at hke
                  cases hke
                  left; rfl
                · rw [List.getElem?_set_ne (fun h => hkj h.symm)] at hke
                  exact h3 k nk hk hke
            · rw [heq]
              refine ih (isc + 1) _ ?_ ?_ ?_
              · rw [List.getElem?_set_ne hisurv]; exact h1
              · rw [List.getElem?_set_ne hivict]; exact h2
              · intro k nk hk hke
                by_cases hki : k = isc
                · subst hki
                  rw [List.getElem?_set_self hisclen] at hke
                  cases hke
                  left; rfl
                · rw [List.getElem?_set_ne (fun h => hki h.symm)] at hke
                  exact h3 k nk hk hke
          · exact absurd trivial (fun _ => hF)

/-- Walking the outer loop up to the first index of the tracked pair: all
earlier iterations leave the pair intact and keep every other entry off the
pair's label class; at index `i` the inner loop fires exactly on `j`. -/
theorem dedupOuter_walk (i j : Nat) (ni nj : Node)
    (hij : i < j)
    (hLi : sstrip ni.station_label ≠ "")
    (hcol : dedupCollide ni nj = true) :
    ∀ fuel i0 s, i0 ≤ i → i < i0 + fuel →
      s[i]? = some ni → s[j]? = some nj →
      (∀ k nk, k ≠ i → k ≠ j → s[k]? = some nk →
        offClass (slower (sstrip ni.station_label)) nk) →
      (if dedupDropJ ni nj then
        (dedupOuter fuel i0 s)[i]? = some ni ∧
        (dedupOuter fuel i0 s)[j]? = some (clearLabel nj)
       else
        (dedupOuter fuel i0 s)[i]? = some (clearLabel ni) ∧
        (dedupOuter fuel i0 s)[j]? = some nj) := by
  have hLeq := (dedupCollide_iff ni nj).mp hcol
  intro fuel
  induction fuel with
  | zero => intro i0 s h1 h2 _ _ _; omega
  | succ fuel ih =>
    intro i0 s h1 h2 hsi hsj hoff
    have hjlen : j < s.length := getElem?_some_lt hsj
    rcases Nat.eq_or_lt_of_le h1 with rfl | hlt
    · -- the outer loop has reached i: the inner loop fires on j
      have step : dedupOuter (fuel + 1) i0 s =
          dedupOuter fuel (i0 + 1) (dedupInner s i0 s.length (i0 + 1)) := by
        simp [dedupOuter, hsi, hLi]
      have hfire : dedupInner s i0 s.length (i0 + 1) =
          if dedupDropJ ni nj then s.set j (clearLabel nj)
          else s.set i0 (clearLabel ni) := by
        refine dedupInner_fire s i0 ni hsi s.length (i0 + 1) j nj hij (by omega) hsj hcol ?_
        intro k nk hk1 hk2 hke
        exact dedupCollide_eq_false_of_offClass rfl
          (hoff k nk (by omega) (by omega) hke)
      rw [step, hfire]
      by_cases hd : dedupDropJ ni nj = true
      · rw [if_pos hd, if_pos hd]
        refine dedupOuter_post (slower (sstrip ni.station_label)) i0 j ni nj rfl
          fuel (i0 + 1) _ ?_ ?_ ?_
        · rw [List.getElem?_set_ne (Nat.ne_of_gt hij)]; exact hsi
        · rw [List.getElem?_set_self hjlen]
        · intro k nk hk hke
          by_cases hkj : k = j
          · subst hkj
            rw [List.getElem?_set_self hjlen] at hke
            cases hke
            left; rfl
          · rw [List.getElem?_set_ne (fun h => hkj h.symm)] at hke
            exact hoff k nk hk hkj hke
      · rw [if_neg hd, if_neg hd]
        have hilen : i0 < s.length := getElem?_some_lt hsi
        refine And.symm (dedupOuter_post (slower (sstrip ni.station_label)) j i0 nj ni
          hLeq.2.1.symm fuel (i0 + 1) _ ?_ ?_ ?_)
        · rw [List.getElem?_set_ne (Nat.ne_of_lt hij)]; exact hsj
        · rw [List.getElem?_set_self hilen]
        · intro k nk hk hke
          by_cases hki : k = i0
          · subst hki
            rw [List.getElem?_set_self hilen] at hke
            cases hke
            left; rfl
          · rw [List.getElem?_set_ne (fun h => hki h.symm)] at hke
            exact hoff k nk hki hk hke
    · -- an earlier outer iteration: the pair is untouched
      have hilen0 : i0 < s.length := by omega
      obtain ⟨n0, h0⟩ : ∃ n0, s[i0]? = some n0 :=
        ⟨s[i0], List.getElem?_eq_getElem hilen0⟩
      have hi0i : i0 ≠ i := Nat.ne_of_lt hlt
      have hi0j : i0 ≠ j := by omega
      by_cases hlab : sstrip n0.station_label = ""
      · have step : dedupOuter (fuel + 1) i0 s = dedupOuter fuel (i0 + 1) s := by
          simp [dedupOuter, h0, hlab]
        rw [step]
        exact ih (i0 + 1) s hlt (by omega) hsi hsj hoff
      · have step : dedupOuter (fuel + 1) i0 s =
            dedupOuter fuel (i0 + 1) (dedupInner s i0 s.length (i0 + 1)) := by
          simp [dedupOuter, h0, hlab]
        rw [step]
        have hn0off : slower (sstrip n0.station_label) ≠
            slower (sstrip ni.station_label) := by
          rcases hoff i0 n0 hi0i hi0j h0 with hx | hx
          · exact absurd hx hlab
          · exact hx
        rcases dedupInner_cases s i0 n0 h0 s.length (i0 + 1) with hid |
          ⟨j', nj', _, hmem', hcol', hcase⟩
        · rw [hid]
          exact ih (i0 + 1) s hlt (by omega) hsi hsj hoff
        · have hcol'' := (dedupCollide_iff n0 nj').mp hcol'
          have hj'i : j' ≠ i := by
            intro hx
            subst hx
            rw [hmem'] at hsi
            cases hsi
            exact hn0off hcol''.2.1
          have hj'j : j' ≠ j := by
            intro hx
            subst hx
            rw [hmem'] at hsj
            cases hsj
            exact hn0off (hcol''.2.1.trans hLeq.2.1.symm)
          have hj'len : j' < s.length := getElem?_some_lt hmem'
          rcases hcase with ⟨_, heq⟩ | ⟨_, heq⟩
          · rw [heq]
            refine ih (i0 + 1) _ hlt (by omega) ?_ ?_ ?_
            · rw [List.getElem?_set_ne hj'i]; exact hsi
            · rw [List.getElem?_set_ne hj'j]; exact hsj
            · intro k nk hki hkj hke
              by_cases hkj' : k = j'
              · subst hkj'
                rw [List.getElem?_set_self hj'len] at hke
                cases hke
                left; rfl
              · rw [List.getElem?_set_ne (fun h => hkj' h.symm)] at hke
                exact hoff k nk hki hkj hke
          · rw [heq]
            refine ih (i0 + 1) _ hlt (by omega) ?_ ?_ ?_
            · rw [List.getElem?_set_ne hi0i]; exact hsi
            · rw [List.getElem?_set_ne hi0j]; exact hsj
            · intro k nk hki hkj hke
              by_cases hki0 : k = i0
              · subst hki0
                rw [List.getElem?_set_self hilen0] at hke
                cases hke
                left; rfl
              · rw [List.getElem?_set_ne (fun h => hki0 h.symm)] at hke
                exact hoff k nk hki hkj hke

/-- C1, counterexample.  Three nodes labelled "X" pairwise within twice the
trailhead-match distance: the inner loop `break`s after clearing the middle
node, so the pair (first, third) is never examined and BOTH retain the
non-empty label — contradicting "exactly one of the two retains a non-empty
station label" for that pair. -/
theorem claim_C1_counterexample :
    (sstrip cexDedupA.station_label ≠ "" ∧ sstrip cexDedupC.station_label ≠ "" ∧
      slower (sstrip cexDedupA.station_label) = slower (sstrip cexDedupC.station_label) ∧
      distSq cexDedupA.lon cexDedupA.lat cexDedupC.lon cexDedupC.lat < dedupDistSq) ∧
    (dedupPass [cexDedupA, cexDedupB, cexDedupC])[0]? = some cexDedupA ∧
    (dedupPass [cexDedupA, cexDedupB, cexDedupC])[2]? = some cexDedupC := by
  decide

/-- C1 (amended): when exactly two labelled nodes carry a given
case-insensitive label (no third labelled node shares it), the pass clears
exactly one of the two — the one `drop_j` designates — and the survivor is
the strictly-higher-priority node; on a priority tie the externally-named
one; on a further tie the strictly-lower-degree one. -/
theorem claim_C1_amended (pts : List Node) (i j : Nat) (ni nj : Node)
    (hij : i < j)
    (hi : pts[i]? = some ni) (hj : pts[j]? = some nj)
    (hLi : sstrip ni.station_label ≠ "") (hLj : sstrip nj.station_label ≠ "")
    (heq : slower (sstrip ni.station_label) = slower (sstrip nj.station_label))
    (hdist : distSq ni.lon ni.lat nj.lon nj.lat < dedupDistSq)
    (huniq : ∀ k nk, k ≠ i → k ≠ j → pts[k]? = some nk →
      sstrip nk.station_label = "" ∨
      slower (sstrip nk.station_label) ≠ slower (sstrip ni.station_label)) :
    (if dedupDropJ ni nj then
      (dedupPass pts)[i]? = some ni ∧ (dedupPass pts)[j]? = some (clearLabel nj)
     else
      (dedupPass pts)[i]? = some (clearLabel ni) ∧ (dedupPass pts)[j]? = some nj) ∧
    (nj.priority < ni.priority → dedupDropJ ni nj = true) ∧
    (ni.priority < nj.priority → dedupDropJ ni nj = false) ∧
    (ni.priority = nj.priority → ni.osm_named = true → nj.osm_named = false →
      dedupDropJ ni nj = true) ∧
    (ni.priority = nj.priority → ni.osm_named = false → nj.osm_named = true →
      dedupDropJ ni nj = false) ∧
    (ni.priority = nj.priority → ni.osm_named = nj.osm_named → ni.deg ≤ nj.deg →
      dedupDropJ ni nj = true) ∧
    (ni.priority = nj.priority → ni.osm_named = nj.osm_named → nj.deg < ni.deg →
      dedupDropJ ni nj = false) := by
  have hcol : dedupCollide ni nj = true := by
    rw [dedupCollide_iff]; exact ⟨hLj, heq, hdist⟩
  constructor
  · exact dedupOuter_walk i j ni nj hij hLi hcol pts.length 0 pts (Nat.zero_le _)
      (by simpa using getElem?_some_lt hi) hi hj huniq
  refine ⟨?_, ?_, ?_, ?_, ?_, ?_⟩
  · intro h
    rw [dedupDropJ, if_pos (bne_iff_ne.mpr (by omega : ni.priority ≠ nj.priority))]
    simpa using h
  · intro h
    rw [dedupDropJ, if_pos (bne_iff_ne.mpr (by omega : ni.priority ≠ nj.priority))]
    simpa using (by omega : ¬ nj.priority < ni.priority)
  · intro hp hni hnj
    rw [dedupDropJ, if_neg (by simp [hp])]
    simp [hni, hnj]
  · intro hp hni hnj
    rw [dedupDropJ, if_neg (by simp [hp])]
    simp [hni, hnj]
  · intro hp hosm hdeg
    rw [dedupDropJ, if_neg (by simp [hp])]
    simp [hosm, hdeg]
  · intro hp hosm hdeg
    rw [dedupDropJ, if_neg (by simp [hp])]
    simp [hosm, hdeg, (by omega : ¬ ni.deg ≤ nj.deg)]

/-- Witness for `claim_C1_amended` at a concrete two-node graph (the rail
station outranks the trailhead, which loses its label). -/
theorem claim_C1_witness :
    (dedupPass [witDedupA, witDedupB])[0]? = some witDedupA ∧
    (dedupPass [witDedupA, witDedupB])[1]? = some (clearLabel witDedupB) := by
  have h := claim_C1_amended [witDedupA, witDedupB] 0 1 witDedupA witDedupB
    (by decide) (by decide) (by decide) (by decide) (by decide) (by decide) (by decide)
    (by
      intro k nk hk0 hk1 hke
      have := getElem?_some_lt hke
      simp only [List.length_cons, List.length_nil] at this
      omega)
  have hd : dedupDropJ witDedupA witDedupB = true := by decide
  rw [if_pos hd] at h
  exact h.1

/-! ## C3: normalize_label and idempotence.
Every stage of `normalize_label` only deletes characters, so its output is a
sublist (subsequence) of its input; but a single application is not
idempotent. -/

theorem pyStrip_sublist (s : Str) : List.Sublist (pyStrip s) s := by
  have h2 := List.Sublist.reverse
    (List.dropWhile_sublist (l := (s.dropWhile isSpaceChar).reverse) isSpaceChar)
  rw [List.reverse_reverse] at h2
  exact h2.trans (List.dropWhile_sublist isSpaceChar)

theorem pyStripSet_sublist (chars : List Char) (s : Str) :
    List.Sublist (pyStripSet chars s) s := by
  have h2 := List.Sublist.reverse
    (List.dropWhile_sublist (l := (s.dropWhile (· ∈ chars)).reverse) (· ∈ chars))
  rw [List.reverse_reverse] at h2
  exact h2.trans (List.dropWhile_sublist (· ∈ chars))

theorem stripSuffixAux_sublist :
    ∀ (s : Str) (prevW : Bool) (kept pend : Str),
      List.Sublist (stripSuffixAux prevW kept pend s) (kept ++ pend ++ s) := by
  intro s
  induction s with
  | nil =>
    intro prevW kept pend
    simp [stripSuffixAux]
  | cons c cs ih =>
    intro prevW kept pend
    show List.Sublist
      (if !prevW && suffixMatchHere (c :: cs) then kept
       else if isSuffixSep c then stripSuffixAux (isWordChar c) kept (pend ++ [c]) cs
       else stripSuffixAux (isWordChar c) (kept ++ pend ++ [c]) [] cs) _
    by_cases h1 : (!prevW && suffixMatchHere (c :: cs)) = true
    · rw [if_pos h1, List.append_assoc]
      exact List.sublist_append_left kept (pend ++ (c :: cs))
    · rw [if_neg h1]
      by_cases h2 : isSuffixSep c = true
      · rw [if_pos h2]
        have := ih (isWordChar c) kept (pend ++ [c])
        simpa [List.append_assoc] using this
      · rw [if_neg h2]
        have := ih (isWordChar c) (kept ++ pend ++ [c]) []
        simpa [List.append_assoc] using this

theorem stripSuffixSub_sublist (s : Str) : List.Sublist (stripSuffixSub s) s := by
  simpa using stripSuffixAux_sublist s false [] []

theorem afterSuffixOf_sublist (name : Str) :
    List.Sublist (afterSuffixOf name) name :=
  (pyStrip_sublist _).trans (stripSuffixSub_sublist name)

theorem removeWordAux_sublist (rn : Str) :
    ∀ (fuel : Nat) (prevW : Bool) (s : Str),
      List.Sublist (removeWordAux rn fuel prevW s) s := by
  intro fuel
  induction fuel with
  | zero => intro prevW s; exact List.Sublist.refl s
  | succ fuel ih =>
    intro prevW s
    match s with
    | [] => exact List.Sublist.refl []
    | c :: cs =>
      show List.Sublist
        (if wordMatchAt rn prevW (c :: cs) then
          removeWordAux rn fuel (lastWordness prevW ((c :: cs).take rn.length))
            ((c :: cs).drop rn.length)
         else c :: removeWordAux rn fuel (isWordChar c) cs) _
      by_cases h : wordMatchAt rn prevW (c :: cs) = true
      · rw [if_pos h]
        exact (ih _ _).trans (List.drop_sublist rn.length (c :: cs))
      · rw [if_neg h]
        exact List.Sublist.cons₂ c (ih (isWordChar c) cs)

theorem removeWordCI_sublist (rn s : Str) : List.Sublist (removeWordCI rn s) s :=
  removeWordAux_sublist rn s.length false s

theorem stripRouteStep_sublist (acc rname : Str) :
    List.Sublist (stripRouteStep acc rname) acc := by
  rw [stripRouteStep]
  by_cases h1 : rname.length < 5
  · rw [if_pos h1]
  · rw [if_neg h1]
    by_cases h2 : (cleanCollapse (removeWordCI rname acc)).length < 3
    · simp only [if_pos h2]
      exact List.Sublist.refl acc
    · simp only [if_neg h2]
      exact removeWordCI_sublist rname acc

theorem stripRoutes_sublist :
    ∀ (routes : List Str) (s : Str), List.Sublist (stripRoutes routes s) s := by
  intro routes
  induction routes with
  | nil => intro s; exact List.Sublist.refl s
  | cons r rs ih =>
    intro s
    exact (ih (stripRouteStep s r)).trans (stripRouteStep_sublist s r)

theorem ciConsume_sublist :
    ∀ (pat s r : Str), ciConsume pat s = some r → List.Sublist r s := by
  intro pat
  induction pat with
  | nil =>
    intro s r h
    simp only [ciConsume, Option.some.injEq] at h
    exact h ▸ List.Sublist.refl s
  | cons a as ih =>
    intro s r h
    match s with
    | [] => exact Option.noConfusion h
    | b :: bs =>
      simp only [ciConsume] at h
      by_cases hc : ciEq a b = true
      · rw [if_pos hc] at h
        exact (ih bs r h).cons b
      · rw [if_neg hc] at h
        exact Option.noConfusion h

theorem connTryWord_sublist (prevW : Bool) (w s r : Str)
    (h : connTryWord prevW w s = some r) : List.Sublist r s := by
  rw [connTryWord] at h
  split at h
  · exact Option.noConfusion h
  · split at h
    next r' hc =>
      split at h
      · exact Option.noConfusion h
      · cases h
        exact ciConsume_sublist w s _ hc
    next hc => exact Option.noConfusion h

theorem connAmp_sublist (s r : Str) (h : connAmp s = some r) : List.Sublist r s := by
  cases s with
  | nil => exact Option.noConfusion h
  | cons c rest =>
    simp only [connAmp] at h
    split at h
    · cases h
      exact List.sublist_cons_self c _
    · exact Option.noConfusion h

theorem connPunct_sublist (s r : Str) (h : connPunct s = some r) :
    List.Sublist r s := by
  cases s with
  | nil => exact Option.noConfusion h
  | cons c rest =>
    simp only [connPunct] at h
    split at h
    · cases h
      exact List.sublist_cons_self c _
    · exact Option.noConfusion h

theorem orElse_some {α : Type _} {a : Option α} {b : Unit → Option α} {r : α}
    (h : a.orElse b = some r) : a = some r ∨ (a = none ∧ b () = some r) := by
  cases a with
  | none => right; exact ⟨rfl, h⟩
  | some x => left; exact h

theorem connMatch_sublist (prevW : Bool) (s r : Str)
    (h : connMatch prevW s = some r) : List.Sublist r s := by
  rw [connMatch] at h
  rcases orElse_some h with h1 | ⟨_, h⟩
  · exact connTryWord_sublist _ _ _ _ h1
  rcases orElse_some h with h1 | ⟨_, h⟩
  · exact connTryWord_sublist _ _ _ _ h1
  rcases orElse_some h with h1 | ⟨_, h⟩
  · exact connAmp_sublist _ _ h1
  rcases orElse_some h with h1 | ⟨_, h⟩
  · exact connTryWord_sublist _ _ _ _ h1
  rcases orElse_some h with h1 | ⟨_, h⟩
  · exact connTryWord_sublist _ _ _ _ h1
  exact connPunct_sublist _ _ h

theorem trailConnStrip_sublist :
    ∀ (s : Str) (prevW : Bool), List.Sublist (trailConnStrip prevW s) s := by
  intro s
  induction s with
  | nil => intro prevW; exact List.Sublist.refl []
  | cons c cs ih =>
    intro prevW
    show List.Sublist
      (if trailMatchHere prevW (c :: cs) then []
       else c :: trailConnStrip (isWordChar c) cs) _
    by_cases h : trailMatchHere prevW (c :: cs) = true
    · rw [if_pos h]; exact List.nil_sublist _
    · rw [if_neg h]; exact List.Sublist.cons₂ c (ih (isWordChar c))

theorem connectorSubOnce_sublist (s : Str) :
    List.Sublist (connectorSubOnce s) s := by
  rw [connectorSubOnce]
  rcases h : connMatch false (s.dropWhile isSpaceChar) with _ | r
  · exact (trailConnStrip_sublist s false)
  · refine ((trailConnStrip_sublist _ _).trans ?_)
    refine (List.dropWhile_sublist isSpaceChar).trans ?_
    exact (connMatch_sublist _ _ _ h).trans (List.dropWhile_sublist isSpaceChar)

theorem connectorCleanStep_sublist (s : Str) :
    List.Sublist (connectorCleanStep s) s :=
  (pyStripSet_sublist connStripChars _).trans (connectorSubOnce_sublist s)

theorem connectorClean_sublist (s : Str) : List.Sublist (connectorClean s) s :=
  ((connectorCleanStep_sublist _).trans (connectorCleanStep_sublist _)).trans
    (connectorCleanStep_sublist s)

/-- Every stage of `normalize_label` only deletes characters: the output is
a subsequence of the input. -/
theorem normalizeLabel_sublist (name : Str) (routes : List Str) :
    List.Sublist (normalizeLabel name routes) name := by
  rw [normalizeLabel]
  have hsub : List.Sublist (connectorClean (stripRoutes routes (afterSuffixOf name))) name :=
    ((connectorClean_sublist _).trans (stripRoutes_sublist _ _)).trans
      (afterSuffixOf_sublist name)
  by_cases h1 : 3 ≤ (connectorClean (stripRoutes routes (afterSuffixOf name))).length
  · rw [if_pos h1]
    by_cases h2 : 3 ≤ (pyStrip (connectorClean (stripRoutes routes (afterSuffixOf name)))).length
    · rw [if_pos h2]
      exact (pyStrip_sublist _).trans hsub
    · rw [if_neg h2]
  · rw [if_neg h1]
    by_cases h2 : 3 ≤ (pyStrip (afterSuffixOf name)).length
    · rw [if_pos h2]
      exact (pyStrip_sublist _).trans (afterSuffixOf_sublist name)
    · rw [if_neg h2]

/-- C3, counterexample.  `normalize_label` strips only one trailing generic
suffix per application (the pattern is anchored at the end of the string),
so a label with two stacked suffixes is shortened again by a second
application: idempotence fails on "Betzwood Trailhead Parking" with an empty
route set. -/
theorem claim_C3_counterexample :
    normalizeLabel (normalizeLabel (str "Betzwood Trailhead Parking") []) [] ≠
      normalizeLabel (str "Betzwood Trailhead Parking") [] ∧
    normalizeLabel (str "Betzwood Trailhead Parking") [] = str "Betzwood Trailhead" ∧
    normalizeLabel (normalizeLabel (str "Betzwood Trailhead Parking") []) [] =
      str "Betzwood" := by
  decide

/-- C3 (amended): `normalize_label` is not idempotent, but it never inserts,
duplicates or reorders characters — its output is a subsequence of its
input; consequently each application either returns its input unchanged or
strictly shortens it, so iterated application reaches a fixed point. -/
theorem claim_C3_amended (name : Str) (routes : List Str) :
    List.Sublist (normalizeLabel name routes) name ∧
    (normalizeLabel name routes = name ∨
      (normalizeLabel name routes).length < name.length) := by
  refine ⟨normalizeLabel_sublist name routes, ?_⟩
  rcases Nat.lt_or_ge (normalizeLabel name routes).length name.length with h | h
  · right; exact h
  · left
    exact List.Sublist.eq_of_length (normalizeLabel_sublist name routes)
      (Nat.le_antisymm (List.Sublist.length_le (normalizeLabel_sublist name routes)) h)

/-! ## C6: route-name stripping in `normalize_label`. -/

theorem wordMatchAt_ne_nil {rn : Str} {prevW : Bool} {s : Str}
    (h : wordMatchAt rn prevW s = true) : rn ≠ [] ∧ s ≠ [] := by
  cases rn with
  | nil => exact absurd h (by simp [wordMatchAt])
  | cons a as =>
    cases s with
    | nil => exact absurd h (by simp [wordMatchAt])
    | cons c cs => exact ⟨List.cons_ne_nil a as, List.cons_ne_nil c cs⟩

theorem removeWordAux_eq_of_not_contains (rn : Str) :
    ∀ (fuel : Nat) (prevW : Bool) (s : Str),
      containsWordAux rn prevW s = false → removeWordAux rn fuel prevW s = s := by
  intro fuel
  induction fuel with
  | zero => intro prevW s _; rfl
  | succ fuel ih =>
    intro prevW s hnc
    match s with
    | [] => rfl
    | c :: cs =>
      simp only [containsWordAux, Bool.or_eq_false_iff] at hnc
      show (if wordMatchAt rn prevW (c :: cs) then
          removeWordAux rn fuel (lastWordness prevW ((c :: cs).take rn.length))
            ((c :: cs).drop rn.length)
        else c :: removeWordAux rn fuel (isWordChar c) cs) = c :: cs
      rw [if_neg (by rw [hnc.1]; exact Bool.false_ne_true)]
      rw [ih (isWordChar c) cs hnc.2]

theorem removeWordAux_length_lt_of_contains (rn : Str) :
    ∀ (fuel : Nat) (prevW : Bool) (s : Str),
      containsWordAux rn prevW s = true → s.length ≤ fuel →
      (removeWordAux rn fuel prevW s).length < s.length := by
  intro fuel
  induction fuel with
  | zero =>
    intro prevW s hc hf
    have : s = [] := List.length_eq_zero.mp (Nat.le_zero.mp hf)
    subst this
    exact absurd hc (by simp [containsWordAux])
  | succ fuel ih =>
    intro prevW s hc hf
    match s with
    | [] => exact absurd hc (by simp [containsWordAux])
    | c :: cs =>
      show (if wordMatchAt rn prevW (c :: cs) then
          removeWordAux rn fuel (lastWordness prevW ((c :: cs).take rn.length))
            ((c :: cs).drop rn.length)
        else c :: removeWordAux rn fuel (isWordChar c) cs).length < (c :: cs).length
      by_cases hm : wordMatchAt rn prevW (c :: cs) = true
      · rw [if_pos hm]
        have hrn : 1 ≤ rn.length := by
          rcases wordMatchAt_ne_nil hm with ⟨h1, _⟩
          cases rn with
          | nil => exact absurd rfl h1
          | cons a as => simp
        have hlen := List.Sublist.length_le (removeWordAux_sublist rn fuel
          (lastWordness prevW ((c :: cs).take rn.length)) ((c :: cs).drop rn.length))
        rw [List.length_drop] at hlen
        simp only [List.length_cons] at *
        omega
      · rw [if_neg hm]
        simp only [containsWordAux, Bool.or_eq_true] at hc
        rcases hc with hc | hc
        · exact absurd hc hm
        · have hcs : cs.length ≤ fuel := by
            simp only [List.length_cons] at hf
            omega
          have := ih (isWordChar c) cs hc hcs
          simp only [List.length_cons]
          omega

theorem removeWordCI_eq_of_not_contains (rn s : Str)
    (h : containsWordCI rn s = false) : removeWordCI rn s = s :=
  removeWordAux_eq_of_not_contains rn s.length false s h

theorem removeWordCI_length_lt_of_contains (rn s : Str)
    (h : containsWordCI rn s = true) : (removeWordCI rn s).length < s.length :=
  removeWordAux_length_lt_of_contains rn s.length false s h (Nat.le_refl _)

/-- C6, counterexample.  The route name "Main" (4 characters) occurs as a
whole word in the suffix-stripped label "Alpha Main", and stripping it would
leave "Alpha" — 5 ≥ 3 meaningful characters — yet `normalize_label` leaves
the label unchanged: route names shorter than 5 characters are skipped
outright, contradicting "regardless of the route name's own length". -/
theorem claim_C6_counterexample :
    containsWordCI (str "Main") (afterSuffixOf (str "Alpha Main")) = true ∧
    3 ≤ (cleanCollapse (removeWordCI (str "Main") (afterSuffixOf (str "Alpha Main")))).length ∧
    normalizeLabel (str "Alpha Main") [str "Main"] = str "Alpha Main" ∧
    containsWordCI (str "Main") (normalizeLabel (str "Alpha Main") [str "Main"]) = true := by
  decide

/-- C6 (amended): a route name is skipped outright when shorter than 5
characters; a route name of length at least 5 is stripped — all of its
whole-word occurrences removed, strictly shortening the text when one
occurs — exactly when the removal leaves at least 3 meaningful characters
after collapsing residual punctuation and whitespace. -/
theorem claim_C6_amended (acc rname : Str) (h5 : 5 ≤ rname.length)
    (hguard : 3 ≤ (cleanCollapse (removeWordCI rname acc)).length) :
    stripRouteStep acc rname = removeWordCI rname acc ∧
    (containsWordCI rname acc = true →
      (stripRouteStep acc rname).length < acc.length) ∧
    (containsWordCI rname acc = false → stripRouteStep acc rname = acc) := by
  have hstep : stripRouteStep acc rname = removeWordCI rname acc := by
    rw [stripRouteStep, if_neg (by omega), if_neg (by omega)]
  refine ⟨hstep, ?_, ?_⟩
  · intro hc
    rw [hstep]
    exact removeWordCI_length_lt_of_contains rname acc hc
  · intro hnc
    rw [hstep]
    exact removeWordCI_eq_of_not_contains rname acc hnc

/-- Witness for `claim_C6_amended`: the 10-character route "Washington"
occurring in "Fort Washington" is stripped, leaving "Fort". -/
theorem claim_C6_witness :
    stripRouteStep (str "Fort Washington") (str "Washington") =
      removeWordCI (str "Washington") (str "Fort Washington") ∧
    (stripRouteStep (str "Fort Washington") (str "Washington")).length <
      (str "Fort Washington").length := by
  have h := claim_C6_amended (str "Fort Washington") (str "Washington")
    (by decide) (by decide)
  exact ⟨h.1, h.2.1 (by decide)⟩

theorem priOk_of_same (m n : Node) (ht : m.node_type = n.node_type)
    (hp : m.priority = n.priority) (h : priOk n) : priOk m := by
  rw [priOk, ht, hp]
  rw [priOk] at h
  exact h

/-- C4: classification establishes the invariant and every subsequent
property update preserves it.  Rail absorption sets `node_type` to
"absorbed", which has no table entry, so the invariant (scoped to the six
tabulated types, as the claim's table is) holds vacuously there; all other
updates either set type and priority together or touch neither. -/
theorem claim_C4_priority_invariant :
    (∀ n : Node, priOk (applyClassify n)) ∧
    (∀ n : Node, priOk (prepRailPoint n)) ∧
    (∀ n : Node, priOk (hideAbsorbed n)) ∧
    (∀ (name : String) (n : Node), priOk (labelTrailheadPass1 name n)) ∧
    (∀ (i name : String) (qlon qlat : ℚ) (p : Bool),
      priOk (mkSyntheticTrailhead i name qlon qlat p)) ∧
    (∀ n : Node, priOk n → priOk (hideNode n)) ∧
    (∀ n : Node, priOk n → priOk (clearLabel n)) ∧
    (∀ (ic nm : String) (n : Node), priOk n → priOk (amenityApplyLabel ic nm n)) := by
  have htype : ∀ (t : String) (n : Node), n.node_type = t → priOk n =
      (match NODE_PRIORITY t with | some v => n.priority = v | none => True) := by
    intro t n h
    rw [priOk, h]
  refine ⟨?_, ?_, ?_, ?_, ?_, ?_, ?_, ?_⟩
  · intro n
    rw [applyClassify, classifyTrailNode]
    by_cases h1 : n.node_type ≠ ""
    · rw [if_pos h1]
      show priOk _
      rw [priOk]
      simp only
      cases hv : NODE_PRIORITY n.node_type with
      | none => trivial
      | some v => simp [hv]
    · rw [if_neg h1]
      simp only
      by_cases h2 : n.osm_named = true ∧ sstrip n.station_label ≠ ""
      · rw [if_pos h2]; rw [priOk]; rfl
      · rw [if_neg h2]
        by_cases h3 : sstrip n.station_label ≠ "" ∧ n.id.startsWith "th_" = true
        · rw [if_pos h3]; rw [priOk]; rfl
        · rw [if_neg h3]
          by_cases h4 : sstrip n.station_label ≠ ""
          · rw [if_pos h4]; rw [priOk]; rfl
          · rw [if_neg h4]
            by_cases h5 : n.deg = 1
            · rw [if_pos h5]; rw [priOk]; rfl
            · rw [if_neg h5]; rw [priOk]; rfl
  · intro n; rw [priOk]; rfl
  · intro n; exact trivial
  · intro name n; rw [priOk]; rfl
  · intro i name qlon qlat p; rw [priOk]; rfl
  · intro n h; exact priOk_of_same _ n rfl rfl h
  · intro n h; exact priOk_of_same _ n rfl rfl h
  · intro ic nm n h
    refine priOk_of_same _ n ?_ ?_ h
    · simp only [amenityApplyLabel]
      split <;> split <;> rfl
    · simp only [amenityApplyLabel]
      split <;> split <;> rfl

/-- Witness for `claim_C4_priority_invariant`: the hide of an unnamed
endpoint keeps the invariant at a concrete node. -/
theorem claim_C4_witness : priOk (hideNode witPriNode) :=
  claim_C4_priority_invariant.2.2.2.2.2.1 witPriNode (by rw [priOk]; rfl)

/-- C7, on the intended reading (the shipped code is a `SyntaxError` and
cannot run): a labelled non-rail node whose normalized label
case-insensitively equals a known route name has its label cleared when not
externally named, and keeps the normalized label when externally named. -/
theorem claim_C7_intended_behavior (routeNames : List Str) (n : Node)
    (hlab : pyStrip n.station_label.toList ≠ [])
    (hrail : n.node_type ≠ "rail_station")
    (hmatch : routeNames.any
      (fun r => ciStrEq (normalizeLabel (pyStrip n.station_label.toList) routeNames) r) = true) :
    (n.osm_named = false →
      (normalizeLabelsNodeStep routeNames n).station_label = "") ∧
    (n.osm_named = true →
      (normalizeLabelsNodeStep routeNames n).station_label =
        (if normalizeLabel (pyStrip n.station_label.toList) routeNames ≠
            pyStrip n.station_label.toList
         then (normalizeLabel (pyStrip n.station_label.toList) routeNames).asString
         else n.station_label)) := by
  constructor
  · intro hosm
    simp only [String.toList] at hlab hmatch ⊢
    simp only [normalizeLabelsNodeStep, String.toList]
    rw [if_neg hlab, if_neg hrail, hmatch, hosm]
    rw [if_pos (show (true && !false) = true from rfl), if_pos (Ne.symm hlab)]
    rfl
  · intro hosm
    simp only [String.toList] at hlab hmatch ⊢
    simp only [normalizeLabelsNodeStep, String.toList]
    rw [if_neg hlab, if_neg hrail, hosm]
    rw [if_neg (show ¬((routeNames.any fun r =>
        ciStrEq (normalizeLabel (pyStrip n.station_label.data) routeNames) r) && !true) = true
      by simp)]
    by_cases hch : normalizeLabel (pyStrip n.station_label.data) routeNames ≠
        pyStrip n.station_label.data
    · rw [if_pos hch, if_pos hch]
    · rw [if_neg hch, if_neg hch]

/-- Witness for `claim_C7_intended_behavior`: the intended pass clears the
route-name-only label of a non-externally-named node. -/
theorem claim_C7_witness :
    (normalizeLabelsNodeStep [str "Chester Valley Trail"] witC7Node).station_label = "" := by
  have h := claim_C7_intended_behavior [str "Chester Valley Trail"] witC7Node
    (by decide) (by decide) (by decide)
  exact h.1 (by decide)

theorem set_zero_head? {α : Type _} (l : List α) (c : α) (h : 0 < l.length) :
    (l.set 0 c).head? = some c := by
  rw [List.head?_eq_getElem?]
  exact List.getElem?_set_self (by simpa using h)

theorem set_last_getLast? {α : Type _} (l : List α) (c : α) (h : 0 < l.length) :
    (l.set (l.length - 1) c).getLast? = some c := by
  rw [List.getLast?_eq_getElem?, List.length_set]
  exact List.getElem?_set_self (by omega)

theorem lookup_append_of_some {l₁ l₂ : List (String × String)} {k v : String}
    (h : l₁.lookup k = some v) : (l₁ ++ l₂).lookup k = some v := by
  induction l₁ with
  | nil => exact Option.noConfusion h
  | cons p l ih =>
    rcases p with ⟨pk, pv⟩
    rw [List.cons_append]
    simp only [List.lookup] at h ⊢
    cases hkp : (k == pk) with
    | true => simp only [hkp] at h ⊢; exact h
    | false => simp only [hkp] at h ⊢; exact ih h

theorem lookup_append_of_none {l₁ l₂ : List (String × String)} {k : String}
    (h : l₁.lookup k = none) : (l₁ ++ l₂).lookup k = l₂.lookup k := by
  induction l₁ with
  | nil => rfl
  | cons p l ih =>
    rcases p with ⟨pk, pv⟩
    rw [List.cons_append]
    simp only [List.lookup] at h ⊢
    cases hkp : (k == pk) with
    | true => simp only [hkp] at h; exact Option.noConfusion h
    | false => simp only [hkp] at h ⊢; exact ih h

/-- The greedy fold only ever appends to the remap. -/
theorem buildRemap_extends (pts : List Node) :
    ∀ (l : List Node) (remap : List (String × String)),
      ∃ t, l.foldl (processRailStation pts) remap = remap ++ t := by
  intro l
  induction l with
  | nil => intro remap; exact ⟨[], (List.append_nil remap).symm⟩
  | cons r rs ih =>
    intro remap
    rw [List.foldl_cons]
    rcases hsel : nearestAvailTrail remap pts r.lon r.lat with _ | ⟨tid, d2⟩
    · have hps : processRailStation pts remap r = remap := by
        simp only [processRailStation, hsel]
      rw [hps]
      exact ih remap
    · by_cases hd : d2 < RAIL_MERGE_SQ
      · have hps : processRailStation pts remap r = remap ++ [(tid, r.id)] := by
          simp only [processRailStation, hsel]
          rw [if_pos hd]
        rw [hps]
        rcases ih (remap ++ [(tid, r.id)]) with ⟨t, ht⟩
        exact ⟨(tid, r.id) :: t, by rw [ht, List.append_assoc]; rfl⟩
      · have hps : processRailStation pts remap r = remap := by
          simp only [processRailStation, hsel]
          rw [if_neg hd]
        rw [hps]
        exact ih remap

/-- The nearest-available scan never returns an id that is already in the
remap. -/
theorem nearestStep_lookup_none {remap : List (String × String)} {rlon rlat : ℚ}
    {best : Option (String × ℚ)} {tp : Node}
    (hb : ∀ bid bd, best = some (bid, bd) → remap.lookup bid = none)
    (bid : String) (bd : ℚ)
    (hx : nearestStep remap rlon rlat best tp = some (bid, bd)) :
    remap.lookup bid = none := by
  unfold nearestStep at hx
  by_cases hm : (remap.lookup tp.id).isSome
  · rw [if_pos hm] at hx
    exact hb bid bd hx
  · rw [if_neg hm] at hx
    rcases best with _ | ⟨cid, cd⟩
    · simp only [Option.some.injEq, Prod.mk.injEq] at hx
      rw [← hx.1]
      exact Option.not_isSome_iff_eq_none.mp hm
    · simp only at hx
      split at hx
      · simp only [Option.some.injEq, Prod.mk.injEq] at hx
        rw [← hx.1]
        exact Option.not_isSome_iff_eq_none.mp hm
      · simp only [Option.some.injEq, Prod.mk.injEq] at hx
        rw [← hx.1]
        exact hb cid cd rfl

theorem nearestAvail_not_absorbed (remap : List (String × String))
    (pts : List Node) (rlon rlat : ℚ) (tid : String) (d2 : ℚ)
    (h : nearestAvailTrail remap pts rlon rlat = some (tid, d2)) :
    remap.lookup tid = none := by
  rw [nearestAvailTrail] at h
  suffices hgen : ∀ (l : List Node) (best : Option (String × ℚ)),
      (∀ bid bd, best = some (bid, bd) → remap.lookup bid = none) →
      ∀ bid bd, l.foldl (nearestStep remap rlon rlat) best = some (bid, bd) →
      remap.lookup bid = none by
    exact hgen pts none (fun _ _ hx => Option.noConfusion hx) tid d2 h
  intro l
  induction l with
  | nil =>
    intro best hb bid bd h
    exact hb bid bd h
  | cons tp l ih =>
    intro best hb bid bd h
    rw [List.foldl_cons] at h
    exact ih _ (fun bid' bd' hx => nearestStep_lookup_none hb bid' bd' hx) bid bd h

/-- `find?` by id returns the indexed element when ids are distinct. -/
theorem find?_by_id_of_nodup (rails : List Node) (k : Nat) (rk : Node)
    (hk : rails[k]? = some rk) (hndup : (rails.map Node.id).Nodup) :
    rails.find? (fun r => r.id == rk.id) = some rk := by
  induction rails generalizing k with
  | nil => exact Option.noConfusion hk
  | cons r rs ih =>
    rw [List.map_cons, List.nodup_cons] at hndup
    cases k with
    | zero =>
      rw [List.getElem?_cons_zero] at hk
      cases hk
      rw [List.find?_cons_of_pos _ (by simp)]
    | succ k =>
      rw [List.getElem?_cons_succ] at hk
      have hmem : rk ∈ rs := by
        have hlt := getElem?_some_lt hk
        have := List.getElem?_eq_getElem hlt
        rw [this] at hk
        cases hk
        exact List.getElem_mem hlt
      have hne : r.id ≠ rk.id := by
        intro hx
        exact hndup.1 (hx ▸ List.mem_map_of_mem Node.id hmem)
      rw [List.find?_cons_of_neg _ (by simpa using hne)]
      exact ih k hk hndup.2

theorem railCoordsOf_eq (railPts : List Node) (k : Nat) (rk : Node)
    (hk : railPts[k]? = some rk) (hndup : (railPts.map Node.id).Nodup) :
    railCoordsOf railPts rk.id = some (rk.lon, rk.lat) := by
  rw [railCoordsOf, find?_by_id_of_nodup railPts k rk hk hndup]
  rfl

/-- The final remap of the greedy absorption binds the node selected at
step `k` to the id of the rail station processed there. -/
theorem buildRemap_lookup (trailPts railPts : List Node) (k : Nat) (rk : Node)
    (hk : railPts[k]? = some rk)
    (tid : String) (d2 : ℚ)
    (hsel : nearestAvailTrail (buildRemap trailPts (railPts.take k)) trailPts
      rk.lon rk.lat = some (tid, d2))
    (hd : d2 < RAIL_MERGE_SQ) :
    ∀ k', k < k' → (buildRemap trailPts (railPts.take k')).lookup tid = some rk.id := by
  have hstep : buildRemap trailPts (railPts.take (k + 1)) =
      buildRemap trailPts (railPts.take k) ++ [(tid, rk.id)] := by
    have h1 : railPts.take (k + 1) = railPts.take k ++ [rk] := by
      rw [List.take_succ, hk]
      rfl
    rw [h1, buildRemap, List.foldl_append, ← buildRemap]
    show processRailStation trailPts _ rk = _
    simp only [processRailStation, hsel]
    rw [if_pos hd]
  have hnone := nearestAvail_not_absorbed _ trailPts rk.lon rk.lat tid d2 hsel
  have hk1 : (buildRemap trailPts (railPts.take (k + 1))).lookup tid = some rk.id := by
    rw [hstep, lookup_append_of_none hnone]
    simp [List.lookup]
  intro k' hkk
  have hdecomp : railPts.take k' = railPts.take (k + 1) ++
      (railPts.drop (k + 1)).take (k' - (k + 1)) := by
    rw [← List.take_add]
    congr 1
    omega
  rw [hdecomp, buildRemap, List.foldl_append, ← buildRemap]
  rcases buildRemap_extends trailPts ((railPts.drop (k + 1)).take (k' - (k + 1)))
    (buildRemap trailPts (railPts.take (k + 1))) with ⟨t, ht⟩
  rw [ht]
  exact lookup_append_of_some hk1

/-- Re-pointing an edge whose `from` reference was absorbed. -/
theorem repointEdge_from (railPts : List Node) (remap : List (String × String))
    (e : Edge) (rid : String) (c : ℚ × ℚ)
    (hf : remap.lookup e.fromId = some rid)
    (hc : railCoordsOf railPts rid = some c) :
    (repointEdge railPts remap e).fromId = rid ∧
    (2 ≤ e.coords.length → (repointEdge railPts remap e).coords.head? = some c) := by
  simp only [repointEdge, hf, hc]
  rcases hto : remap.lookup e.toId with _ | nid2 <;> simp only [hto]
  · exact ⟨trivial, fun hlen => set_zero_head? e.coords c (by omega)⟩
  · rcases hc2 : railCoordsOf railPts nid2 with _ | c2 <;> simp only [hc2]
    · exact ⟨trivial, fun hlen => set_zero_head? e.coords c (by omega)⟩
    · refine ⟨trivial, fun hlen => ?_⟩
      rw [List.head?_eq_getElem?]
      rw [List.getElem?_set_ne (by simp only [List.length_set]; omega)]
      rw [← List.head?_eq_getElem?]
      exact set_zero_head? e.coords c (by omega)

/-- Re-pointing an edge whose `to` reference was absorbed. -/
theorem repointEdge_to (railPts : List Node) (remap : List (String × String))
    (e : Edge) (rid : String) (c : ℚ × ℚ)
    (ht : remap.lookup e.toId = some rid)
    (hc : railCoordsOf railPts rid = some c) :
    (repointEdge railPts remap e).toId = rid ∧
    (0 < e.coords.length → (repointEdge railPts remap e).coords.getLast? = some c) := by
  simp only [repointEdge]
  rcases hfrom : remap.lookup e.fromId with _ | nid1 <;> simp only [hfrom]
  · simp only [ht, hc]
    exact ⟨trivial, fun hlen => set_last_getLast? e.coords c hlen⟩
  · rcases hc1 : railCoordsOf railPts nid1 with _ | c1 <;> simp only [hc1]
    · simp only [ht, hc]
      exact ⟨trivial, fun hlen => set_last_getLast? e.coords c hlen⟩
    · simp only [ht, hc]
      refine ⟨trivial, fun hlen => ?_⟩
      have := set_last_getLast? (e.coords.set 0 c1) c
        (by simp only [List.length_set]; omega)
      simpa using this

/-- C2: postconditions of the rail absorption.  `railPts` is the prepared
rail-point list (prefixed ids, rail_station tags) in rail-input order, as
built by `mergeRailIntoTrails`; the station at position `k` selects trail
node `tid` at squared distance `d2` strictly within the threshold.  Then
(1) the trail node is hidden with exactly the cleared fields and type
"absorbed", (2) every edge referencing it is re-pointed to the station's
prefixed id with the matching polyline endpoint overwritten by the
station's coordinates, and (3) no later station's scan can select it. -/
theorem claim_C2_rail_absorption (trailPts railPts : List Node) (k : Nat) (rk : Node)
    (hk : railPts[k]? = some rk)
    (hndup : (railPts.map Node.id).Nodup)
    (tid : String) (d2 : ℚ)
    (hsel : nearestAvailTrail (buildRemap trailPts (railPts.take k)) trailPts
      rk.lon rk.lat = some (tid, d2))
    (hd : d2 < RAIL_MERGE_SQ) :
    ((buildRemap trailPts railPts).lookup tid = some rk.id) ∧
    (∀ p : Node, p.id = tid →
      hideIfAbsorbed (buildRemap trailPts railPts) p = hideAbsorbed p ∧
      (hideIfAbsorbed (buildRemap trailPts railPts) p).station_label = "" ∧
      (hideIfAbsorbed (buildRemap trailPts railPts) p).station_id = "" ∧
      (hideIfAbsorbed (buildRemap trailPts railPts) p).deg = 0 ∧
      (hideIfAbsorbed (buildRemap trailPts railPts) p).deg_in = 0 ∧
      (hideIfAbsorbed (buildRemap trailPts railPts) p).deg_out = 0 ∧
      (hideIfAbsorbed (buildRemap trailPts railPts) p).node_type = "absorbed") ∧
    (∀ e : Edge, e.fromId = tid → 2 ≤ e.coords.length →
      (repointEdge railPts (buildRemap trailPts railPts) e).fromId = rk.id ∧
      (repointEdge railPts (buildRemap trailPts railPts) e).coords.head? =
        some (rk.lon, rk.lat)) ∧
    (∀ e : Edge, e.toId = tid → e.coords ≠ [] →
      (repointEdge railPts (buildRemap trailPts railPts) e).toId = rk.id ∧
      (repointEdge railPts (buildRemap trailPts railPts) e).coords.getLast? =
        some (rk.lon, rk.lat)) ∧
    (∀ k' rk', k < k' → railPts[k']? = some rk' →
      ∀ tid' d2', nearestAvailTrail (buildRemap trailPts (railPts.take k'))
        trailPts rk'.lon rk'.lat = some (tid', d2') → tid' ≠ tid) := by
  have hfull : (buildRemap trailPts railPts).lookup tid = some rk.id := by
    have := buildRemap_lookup trailPts railPts k rk hk tid d2 hsel hd railPts.length
      (getElem?_some_lt hk)
    rwa [List.take_length] at this
  have hcoords : railCoordsOf railPts rk.id = some (rk.lon, rk.lat) :=
    railCoordsOf_eq railPts k rk hk hndup
  refine ⟨hfull, ?_, ?_, ?_, ?_⟩
  · intro p hp
    have : hideIfAbsorbed (buildRemap trailPts railPts) p = hideAbsorbed p := by
      rw [hideIfAbsorbed, hp, hfull]
      rfl
    rw [this]
    exact ⟨rfl, rfl, rfl, rfl, rfl, rfl, rfl⟩
  · intro e hf hlen
    have := repointEdge_from railPts (buildRemap trailPts railPts) e rk.id
      (rk.lon, rk.lat) (hf ▸ hfull) hcoords
    exact ⟨this.1, this.2 hlen⟩
  · intro e ht hne
    have hlen : 0 < e.coords.length := List.length_pos.mpr hne
    have := repointEdge_to railPts (buildRemap trailPts railPts) e rk.id
      (rk.lon, rk.lat) (ht ▸ hfull) hcoords
    exact ⟨this.1, this.2 hlen⟩
  · intro k' rk' hkk _ tid' d2' hsel' heq
    subst heq
    have hsome := buildRemap_lookup trailPts railPts k rk hk tid' d2 hsel hd k' hkk
    have hnone := nearestAvail_not_absorbed _ trailPts rk'.lon rk'.lat tid' d2' hsel'
    rw [hsome] at hnone
    exact Option.noConfusion hnone

/-- Witness for `claim_C2_rail_absorption`: a rail station at 0.0015°
(threshold 0.002°) absorbs the nearest trail node; the node is hidden and
the edge is re-pointed onto the station. -/
theorem claim_C2_witness :
    (buildRemap [witC2Trail] [witC2Rail]).lookup "t1" = some "rail_s1" ∧
    (hideIfAbsorbed (buildRemap [witC2Trail] [witC2Rail]) witC2Trail).node_type =
      "absorbed" ∧
    (repointEdge [witC2Rail] (buildRemap [witC2Trail] [witC2Rail]) witC2Edge).fromId =
      "rail_s1" ∧
    (repointEdge [witC2Rail] (buildRemap [witC2Trail] [witC2Rail]) witC2Edge).coords.head? =
      some (mkRat 15 10000, mkRat 0 1) := by
  have h := claim_C2_rail_absorption [witC2Trail] [witC2Rail] 0 witC2Rail
    (by decide) (by decide) "t1" (mkRat 9 4000000) (by decide) (by decide)
  have hedge := h.2.2.1 witC2Edge (by decide) (by decide)
  exact ⟨h.1, (h.2.1 witC2Trail (by decide)).2.2.2.2.2.2, hedge.1, hedge.2⟩

theorem assocUpdate_lookup_self {α : Type _} (m : List (String × α)) (k : String)
    (f : Option α → α) : (assocUpdate m k f).lookup k = some (f (m.lookup k)) := by
  induction m with
  | nil => simp [assocUpdate, List.lookup]
  | cons p rest ih =>
    rcases p with ⟨k', v⟩
    simp only [assocUpdate]
    by_cases hk : k' = k
    · subst hk
      simp [List.lookup]
    · rw [if_neg hk]
      simp only [List.lookup]
      have hbeq : (k == k') = false := by
        rw [beq_eq_false_iff_ne]
        exact fun h => hk h.symm
      simp only [hbeq]
      exact ih

theorem assocUpdate_lookup_ne {α : Type _} (m : List (String × α)) (k k' : String)
    (f : Option α → α) (h : k' ≠ k) :
    (assocUpdate m k f).lookup k' = m.lookup k' := by
  induction m with
  | nil =>
    simp only [assocUpdate, List.lookup]
    rw [show (k' == k) = false from beq_eq_false_iff_ne.mpr h]
  | cons p rest ih =>
    rcases p with ⟨k0, v⟩
    simp only [assocUpdate]
    by_cases hk : k0 = k
    · subst hk
      simp only [if_pos rfl, List.lookup]
      rw [show (k' == k0) = false from beq_eq_false_iff_ne.mpr h]
    · rw [if_neg hk]
      simp only [List.lookup]
      cases hbk : (k' == k0) with
      | true => rfl
      | false => exact ih

/-- A recorded placement survives any later amenity step. -/
theorem amenStep_placed_mono (points : List Node) (st : AmenState) (e : AmenElem)
    (ty : String) (l : List (ℚ × ℚ)) (c : ℚ × ℚ)
    (hl : st.placed.lookup ty = some l) (hc : c ∈ l) :
    ∃ l', (amenStep points st e).placed.lookup ty = some l' ∧ c ∈ l' := by
  rcases hic : amenIcon e with _ | ⟨icon, ty'⟩
  · simp only [amenStep, hic]
    exact ⟨l, hl, hc⟩
  · simp only [amenStep, hic]
    by_cases hb : spacingBlocked st.placed ty' e.lat e.lon = true
    · rw [if_pos hb]
      exact ⟨l, hl, hc⟩
    · rw [if_neg hb]
      rcases hbest : amenBest points st.nodeIcons ty' e.lon e.lat with _ | ⟨bid, bd⟩
      · simp only [hbest]
        exact ⟨l, hl, hc⟩
      · simp only [hbest]
        by_cases hsnap : amenSnapSq ty' < bd
        · rw [if_pos hsnap]
          exact ⟨l, hl, hc⟩
        · rw [if_neg hsnap]
          by_cases hty : ty = ty'
          · subst hty
            refine ⟨l ++ [(e.lat, e.lon)], ?_, List.mem_append_left _ hc⟩
            show (addPlaced st.placed ty (e.lat, e.lon)).lookup ty =
              some (l ++ [(e.lat, e.lon)])
            rw [addPlaced, assocUpdate_lookup_self, hl]
          · refine ⟨l, ?_, hc⟩
            show (addPlaced st.placed ty' (e.lat, e.lon)).lookup ty = some l
            rw [addPlaced, assocUpdate_lookup_ne _ _ _ _ hty]
            exact hl

/-- A recorded placement survives any run segment. -/
theorem amenFold_placed_mono (points : List Node) :
    ∀ (seg : List AmenElem) (st : AmenState) (ty : String) (l : List (ℚ × ℚ))
      (c : ℚ × ℚ), st.placed.lookup ty = some l → c ∈ l →
      ∃ l', (seg.foldl (amenStep points) st).placed.lookup ty = some l' ∧ c ∈ l' := by
  intro seg
  induction seg with
  | nil => intro st ty l c hl hc; exact ⟨l, hl, hc⟩
  | cons e rest ih =>
    intro st ty l c hl hc
    rw [List.foldl_cons]
    rcases amenStep_placed_mono points st e ty l c hl hc with ⟨l', hl', hc'⟩
    exact ih _ ty l' c hl' hc'

/-- A same-type element strictly within the spacing radius of a recorded
placement is spacing-blocked, and its step is the identity. -/
theorem amenStep_blocked_id (points : List Node) (st : AmenState) (e : AmenElem)
    (icon ty : String) (hic : amenIcon e = some (icon, ty))
    (l : List (ℚ × ℚ)) (c : ℚ × ℚ)
    (hl : st.placed.lookup ty = some l) (hc : c ∈ l)
    (hdist : distSq e.lat e.lon c.1 c.2 < AMENITY_SPACING_SQ) :
    amenStep points st e = st := by
  have hb : spacingBlocked st.placed ty e.lat e.lon = true := by
    simp only [spacingBlocked, hl]
    exact List.any_eq_true.mpr ⟨c, hc, by simpa using hdist⟩
  simp only [amenStep, hic]
  rw [if_pos hb]

/-- C9: an observation whose category was already placed strictly within
`AMENITY_MIN_SPACING` is discarded — running the loop with it is the same
as running the loop without it, so it contributes no icon, no placement
record, no name fallback, and no label change to any node. -/
theorem claim_C9_min_spacing (pts : List Node) (elems : List AmenElem)
    (i j : Nat) (hij : i < j)
    (ei ej : AmenElem) (hi : elems[i]? = some ei) (hj : elems[j]? = some ej)
    (icon_i icon_j ty : String)
    (hci : amenIcon ei = some (icon_i, ty)) (hcj : amenIcon ej = some (icon_j, ty))
    (hplaced : ∃ l, ((elems.take (i + 1)).foldl (amenStep pts)
      (amenInitState pts)).placed.lookup ty = some l ∧ (ei.lat, ei.lon) ∈ l)
    (hdist : distSq ej.lat ej.lon ei.lat ei.lon < AMENITY_SPACING_SQ) :
    amenRun pts elems = amenRun pts (elems.eraseIdx j) ∧
    amenApplyIcons (amenRun pts elems) pts =
      amenApplyIcons (amenRun pts (elems.eraseIdx j)) pts := by
  rcases List.getElem?_eq_some.mp hj with ⟨hjlen, hgetj⟩
  rcases hplaced with ⟨l, hl, hc⟩
  -- the placement persists to the state before element j
  have htakej : elems.take j = elems.take (i + 1) ++
      (elems.drop (i + 1)).take (j - (i + 1)) := by
    rw [← List.take_add]
    congr 1
    omega
  have hsegmono := amenFold_placed_mono pts ((elems.drop (i + 1)).take (j - (i + 1)))
    ((elems.take (i + 1)).foldl (amenStep pts) (amenInitState pts)) ty l
    (ei.lat, ei.lon) hl hc
  rcases hsegmono with ⟨l', hl', hc'⟩
  have hstj : (elems.take j).foldl (amenStep pts) (amenInitState pts) =
      ((elems.drop (i + 1)).take (j - (i + 1))).foldl (amenStep pts)
        ((elems.take (i + 1)).foldl (amenStep pts) (amenInitState pts)) := by
    rw [htakej, List.foldl_append]
  have hblocked : amenStep pts ((elems.take j).foldl (amenStep pts)
      (amenInitState pts)) ej = (elems.take j).foldl (amenStep pts)
      (amenInitState pts) := by
    rw [hstj]
    exact amenStep_blocked_id pts _ ej icon_j ty hcj l' (ei.lat, ei.lon) hl' hc' hdist
  have hmain : amenRun pts elems = amenRun pts (elems.eraseIdx j) := by
    rw [amenRun, amenRun, List.eraseIdx_eq_take_drop_succ]
    conv_lhs => rw [← List.take_append_drop j elems]
    rw [List.foldl_append, List.foldl_append]
    rw [List.drop_eq_getElem_cons hjlen]
    rw [List.foldl_cons]
    rw [hgetj, hblocked]
  exact ⟨hmain, by rw [hmain]⟩

/-- Witness for `claim_C9_min_spacing`: the second observation is discarded
and the run equals the run without it. -/
theorem claim_C9_witness :
    amenRun [witC9Node] [witC9Water1, witC9Water2] =
      amenRun [witC9Node] ([witC9Water1, witC9Water2].eraseIdx 1) := by
  have h := claim_C9_min_spacing [witC9Node] [witC9Water1, witC9Water2] 0 1
    (by decide) witC9Water1 witC9Water2 (by decide) (by decide)
    "🚰️" "🚰️" "water" (by decide) (by decide)
    ⟨[(mkRat 0 1, mkRat 0 1)], by decide, by decide⟩ (by decide)
  exact h.1

theorem qDiv_eq (a b : ℚ) : qDiv a b = a / b := by
  have key : a / b = ((a.num : ℚ) * (b.den : ℚ)) / ((a.den : ℚ) * (b.num : ℚ)) := by
    conv_lhs => rw [← Rat.num_div_den a, ← Rat.num_div_den b]
    rw [div_eq_mul_inv, inv_div, div_mul_div_comm]
  rw [qDiv]
  by_cases hb : 0 ≤ b.num
  · rw [if_pos hb, Rat.mkRat_eq_div, key]
    push_cast
    have h1 : ((b.num.toNat : ℚ)) = (b.num : ℚ) := by
      exact_mod_cast Int.toNat_of_nonneg hb
    rw [h1]
  · rw [if_neg hb, Rat.mkRat_eq_div, key]
    have hb' : 0 ≤ -b.num := by omega
    push_cast
    have h1 : (((-b.num).toNat : ℚ)) = -(b.num : ℚ) := by
      exact_mod_cast Int.toNat_of_nonneg hb'
    rw [h1, mul_neg, neg_div_neg_eq]

theorem th2Fire_ok (features : List Feat) (split : List Nat) (u : ThElem)
    (it : Nat × Edge × Edge × Node) (h : th2Fire features split u = some it) :
    it.1 ∉ split ∧ th2ItemOk features it := by
  rw [th2Fire] at h
  split at h
  · exact absurd h (by simp)
  · split at h
    · exact absurd h (by simp)
    · split at h
      · exact absurd h (by simp)
      · rename_i hfi
        split at h
        · rename_i e he
          split at h
          · exact absurd h (by simp)
          · rename_i hlen
            push_neg at hlen
            cases h
            refine ⟨hfi, e, he, rfl, ?_, ?_, rfl, rfl, rfl, hlen.1, hlen.2,
              ?_, ?_⟩
            · simp [mkSyntheticTrailhead]
            · simp [mkSyntheticTrailhead]
            · simp [mkSyntheticTrailhead, List.getLast?_concat]
            · simp [mkSyntheticTrailhead]
        · exact absurd h (by simp)

theorem th2Fold_ok (features : List Feat) :
    ∀ (elems : List ThElem) (st : List Nat × List (Nat × Edge × Edge × Node)),
      st.1 = st.2.map (fun it => it.1) → st.1.Nodup →
      (∀ it ∈ st.2, th2ItemOk features it) →
      (elems.foldl (th2Step features) st).1 =
        ((elems.foldl (th2Step features) st).2.map fun it => it.1) ∧
      (elems.foldl (th2Step features) st).1.Nodup ∧
      ∀ it ∈ (elems.foldl (th2Step features) st).2, th2ItemOk features it := by
  intro elems
  induction elems with
  | nil => intro st h1 h2 h3; exact ⟨h1, h2, h3⟩
  | cons u rest ih =>
    intro st h1 h2 h3
    rw [List.foldl_cons]
    rcases hf : th2Fire features st.1 u with _ | it
    · have hstep : th2Step features st u = st := by simp only [th2Step, hf]
      rw [hstep]
      exact ih st h1 h2 h3
    · have hstep : th2Step features st u = (st.1 ++ [it.1], st.2 ++ [it]) := by
        simp only [th2Step, hf]
      rw [hstep]
      rcases th2Fire_ok features st.1 u it hf with ⟨hnotin, hok⟩
      refine ih _ ?_ ?_ ?_
      · simp [h1]
      · refine List.nodup_append.mpr ⟨h2, List.nodup_singleton _, ?_⟩
        intro a ha hb
        exact hnotin (List.mem_singleton.mp hb ▸ ha)
      · intro it' h'
        rcases List.mem_append.mp h' with h' | h'
        · exact h3 it' h'
        · rw [List.mem_singleton.mp h']
          exact hok

/-- C10: whenever pass 2 of `add_trailheads` inserts a synthetic trailhead
on an edge with endpoints `from=A`, `to=B` and line set `L`, the consumed
original feature is that LineString, and it is replaced by exactly two
edges — `A → synthetic id` and `synthetic id → B` — both carrying `L`,
each with at least two coordinates, both containing the projection point
as the shared split endpoint; the replacement point and edges all appear
in the reassembled feature list, and each original edge index is consumed
at most once per pass (the index list is duplicate-free, so a second
trailhead projecting onto the same edge is skipped). -/
theorem claim_C10_edge_split (features : List Feat) (elems : List ThElem) :
    ((th2Items features elems).map fun it => it.1).Nodup ∧
    ∀ it ∈ th2Items features elems, th2ItemOk features it ∧
      Feat.pt it.2.2.2 ∈ addTrailheadsPass2 features elems ∧
      Feat.ln it.2.1 ∈ addTrailheadsPass2 features elems ∧
      Feat.ln it.2.2.1 ∈ addTrailheadsPass2 features elems := by
  rcases th2Fold_ok features elems ([], []) rfl List.nodup_nil
    (by intro it h; cases h) with ⟨h1, h2, h3⟩
  constructor
  · rw [th2Items, ← h1]
    exact h2
  · intro it hit
    have hit' : it ∈ (elems.foldl (th2Step features) ([], [])).2 := by
      rwa [th2Items] at hit
    have hne : th2Items features elems ≠ [] := List.ne_nil_of_mem hit
    have hmem : ∀ x ∈ itemFeats it, x ∈ addTrailheadsPass2 features elems := by
      intro x hx
      rw [addTrailheadsPass2, if_neg hne]
      exact List.mem_append_right _ (List.mem_flatMap.mpr ⟨it, hit, hx⟩)
    refine ⟨h3 it hit', ?_, ?_, ?_⟩
    · exact hmem _ (by simp [itemFeats])
    · exact hmem _ (by simp [itemFeats])
    · exact hmem _ (by simp [itemFeats])

/-- Witness for `claim_C10_edge_split`: the candidate fires, producing the
expected split item, and the conclusions hold for it. -/
theorem claim_C10_witness :
    witC10Item ∈ th2Items witC10Features [witC10Elem] ∧
    (th2ItemOk witC10Features witC10Item ∧
      Feat.pt witC10Item.2.2.2 ∈ addTrailheadsPass2 witC10Features [witC10Elem] ∧
      Feat.ln witC10Item.2.1 ∈ addTrailheadsPass2 witC10Features [witC10Elem] ∧
      Feat.ln witC10Item.2.2.1 ∈ addTrailheadsPass2 witC10Features [witC10Elem]) :=
  ⟨by decide,
   (claim_C10_edge_split witC10Features [witC10Elem]).2 witC10Item (by decide)⟩

theorem eq_featPoints_map (l : List Feat) (h : ∀ f ∈ l, f.isPt = true) :
    l = (featPoints l).map Feat.pt := by
  induction l with
  | nil => rfl
  | cons f rest ih =>
    rcases f with n | e
    · rw [featPoints]
      simp only [List.filterMap_cons]
      rw [List.map_cons, ← featPoints]
      rw [← ih fun f hf => h f (List.mem_cons_of_mem _ hf)]
    · exact absurd (h _ (List.mem_cons_self _ _)) (by simp [Feat.isPt])

theorem eq_featEdges_map (l : List Feat) (h : ∀ f ∈ l, f.isPt = false) :
    l = (featEdges l).map Feat.ln := by
  induction l with
  | nil => rfl
  | cons f rest ih =>
    rcases f with n | e
    · exact absurd (h _ (List.mem_cons_self _ _)) (by simp [Feat.isPt])
    · rw [featEdges]
      simp only [List.filterMap_cons]
      rw [List.map_cons, ← featEdges]
      rw [← ih fun f hf => h f (List.mem_cons_of_mem _ hf)]

/-- Mapping a constructor-kind-preserving function over a points-first
list keeps it points-first. -/
theorem pointsFirst_map_any (F : Feat → Feat)
    (hpt : ∀ n, (F (Feat.pt n)).isPt = true)
    (hln : ∀ e, (F (Feat.ln e)).isPt = false)
    (fs : List Feat) (hp : pointsFirst fs) : pointsFirst (fs.map F) := by
  rcases hp with ⟨ps, ls, rfl⟩
  rw [List.map_append, List.map_map, List.map_map]
  have hA : ∀ f ∈ ps.map (F ∘ Feat.pt), f.isPt = true := by
    intro f hf
    rcases List.mem_map.mp hf with ⟨n, _, rfl⟩
    exact hpt n
  have hB : ∀ f ∈ ls.map (F ∘ Feat.ln), f.isPt = false := by
    intro f hf
    rcases List.mem_map.mp hf with ⟨e, _, rfl⟩
    exact hln e
  exact ⟨featPoints (ps.map (F ∘ Feat.pt)), featEdges (ls.map (F ∘ Feat.ln)),
    by rw [← eq_featPoints_map _ hA, ← eq_featEdges_map _ hB]⟩

/-- Prepending Points and appending LineStrings keeps a points-first list
points-first. -/
theorem pointsFirst_wrap (as bs : List Feat) (fs : List Feat)
    (ha : ∀ f ∈ as, f.isPt = true) (hb : ∀ f ∈ bs, f.isPt = false)
    (hp : pointsFirst fs) : pointsFirst (as ++ fs ++ bs) := by
  rcases hp with ⟨ps, ls, rfl⟩
  refine ⟨featPoints as ++ ps, ls ++ featEdges bs, ?_⟩
  rw [List.map_append, List.map_append, ← eq_featPoints_map _ ha,
    ← eq_featEdges_map _ hb]
  simp [List.append_assoc]

/-- C8 amended: `merge_rail_into_trails` preserves the points-first
ordering — rail station Points are prepended, rail LineStrings appended,
and the per-feature rewrites keep each feature's kind. -/
theorem claim_C8_amended (feats rails : List Feat) (hp : pointsFirst feats) :
    pointsFirst (mergeRailIntoTrails feats rails) := by
  simp only [mergeRailIntoTrails]
  apply pointsFirst_wrap
  · intro f hf
    rcases List.mem_map.mp hf with ⟨n, _, rfl⟩
    rfl
  · intro f hf
    rcases List.mem_map.mp hf with ⟨e, _, rfl⟩
    rfl
  · apply pointsFirst_map_any
    · intro n; rfl
    · intro e; rfl
    · apply pointsFirst_map_any
      · intro n; rfl
      · intro e; rfl
      · exact hp

/-- C8 counterexample: after pass 2 of `add_trailheads` splits the first
edge, the reassembled list is `[LineString B–kept, Point, LineString,
LineString]` — the synthetic trailhead Point follows a LineString, so the
claimed pipeline-wide points-first ordering fails at this stage and in
everything built from it. -/
theorem claim_C8_counterexample :
    ¬ pointsFirst (addTrailheadsPass2 cexC8Features [cexC8Elem]) := by
  have hout : addTrailheadsPass2 cexC8Features [cexC8Elem] =
      [Feat.ln cexC8EdgeB, Feat.pt cexC8Pt, Feat.ln cexC8E1, Feat.ln cexC8E2] := by
    decide
  rw [hout]
  rintro ⟨ps, ls, h⟩
  rcases ps with _ | ⟨p, ps'⟩
  · rw [List.map_nil, List.nil_append] at h
    have hmem : Feat.pt cexC8Pt ∈ List.map Feat.ln ls := by
      rw [← h]; simp
    rcases List.mem_map.mp hmem with ⟨e, _, he⟩
    simp at he
  · simp at h

/-- Witness for `claim_C8_amended` at a concrete input. -/
theorem claim_C8_witness :
    pointsFirst [Feat.pt witC8TrailNode, Feat.ln witC8TrailEdge] ∧
    pointsFirst (mergeRailIntoTrails
      [Feat.pt witC8TrailNode, Feat.ln witC8TrailEdge]
      [Feat.pt witC8RailNode, Feat.ln witC8RailEdge]) :=
  ⟨⟨[witC8TrailNode], [witC8TrailEdge], rfl⟩,
   claim_C8_amended _ _ ⟨[witC8TrailNode], [witC8TrailEdge], rfl⟩⟩

theorem lookupPoint_map (F : Feat → Feat) (h : Node → Node)
    (hF : ∀ n, F (Feat.pt n) = Feat.pt (h n))
    (hFe : ∀ e, ∃ e', F (Feat.ln e) = Feat.ln e')
    (hid : ∀ n, (h n).id = n.id) (fs : List Feat) (nid : String) :
    lookupPoint (fs.map F) nid = Option.map h (lookupPoint fs nid) := by
  rw [lookupPoint, lookupPoint, List.foldl_map]
  exact List.foldl_hom (Option.map h) _ _ fs none (by
    intro acc f
    cases f with
    | pt n =>
        rw [hF]
        show (if (h n).id = nid then some (h n) else Option.map h acc) =
          Option.map h (if n.id = nid then some n else acc)
        rw [hid n]
        by_cases hn : n.id = nid
        · rw [if_pos hn, if_pos hn]
          rfl
        · rw [if_neg hn, if_neg hn]
    | ln e =>
        rcases hFe e with ⟨e', he'⟩
        rw [he'])

theorem ptCoordsOf_repointAll (fs : List Feat) (o n' : String) (c : ℚ × ℚ)
    (nid : String) : ptCoordsOf (repointAll fs o n' c) nid = ptCoordsOf fs nid := by
  rw [ptCoordsOf, ptCoordsOf, repointAll,
    lookupPoint_map (repointFeat o n' c) id (fun n => rfl)
      (fun e => ⟨repointOne o n' c e, rfl⟩) (fun n => rfl)]
  cases lookupPoint fs nid <;> rfl

theorem ptCoordsOf_hidePoint (fs : List Feat) (hid0 nid : String) :
    ptCoordsOf (hidePoint fs hid0) nid = ptCoordsOf fs nid := by
  rw [ptCoordsOf, ptCoordsOf, hidePoint,
    lookupPoint_map (hideFeat hid0) (fun n => if n.id = hid0 then hideNode n else n)
      (fun n => rfl) (fun e => ⟨e, rfl⟩)
      (fun n => by by_cases hn : n.id = hid0 <;> simp [hn, hideNode])]
  cases lookupPoint fs nid with
  | none => rfl
  | some n =>
      by_cases hn : n.id = hid0 <;> simp [hn, hideNode]

theorem pass1Step_coords (nls : List (String × List String)) (lab : List Node)
    (st : List Feat × List String) (epId nid : String) :
    ptCoordsOf (pass1Step nls lab st epId).1 nid = ptCoordsOf st.1 nid := by
  simp only [pass1Step]
  repeat' split
  all_goals simp [ptCoordsOf_hidePoint, ptCoordsOf_repointAll]

theorem mergePass1_coords (fs : List Feat) (nid : String) :
    ptCoordsOf (mergePass1 fs).1 nid = ptCoordsOf fs nid := by
  rw [mergePass1]
  have main : ∀ (eps : List String) (st : List Feat × List String),
      ptCoordsOf (eps.foldl (pass1Step (nodeLines fs) (labelledPts fs)) st).1 nid
        = ptCoordsOf st.1 nid := by
    intro eps
    induction eps with
    | nil => intro st; rfl
    | cons e rest ih =>
        intro st
        rw [List.foldl_cons, ih, pass1Step_coords]
  exact main _ _

theorem cascadeAbsorbNbr_inv (fs0 : List Feat)
    (nls : List (String × List String)) (tId : String) (tLon tLat : ℚ)
    (tLines : List String) (hnls : nls = nodeLines fs0)
    (htc : ptCoordsOf fs0 tId = some (tLon, tLat))
    (htl : tLines = ((nodeLines fs0).lookup tId).getD [])
    (st : CascadeSt) (nbrId : String)
    (hc : ∀ nid, ptCoordsOf st.feats nid = ptCoordsOf fs0 nid)
    (he : ∀ ev ∈ st.events, cascadeEventOk fs0 ev) :
    (∀ nid, ptCoordsOf (cascadeAbsorbNbr nls tId tLon tLat tLines st nbrId).feats nid
        = ptCoordsOf fs0 nid) ∧
    ∀ ev ∈ (cascadeAbsorbNbr nls tId tLon tLat tLines st nbrId).events,
      cascadeEventOk fs0 ev := by
  subst hnls
  subst htl
  simp only [cascadeAbsorbNbr]
  split
  · exact ⟨hc, he⟩
  · rename_i nbr hnbr
    split
    · exact ⟨hc, he⟩
    · rename_i hdist
      split
      · exact ⟨hc, he⟩
      · rename_i hlines
        constructor
        · intro nid
          simp only [ptCoordsOf_hidePoint, ptCoordsOf_repointAll]
          exact hc nid
        · intro ev hev
          rcases List.mem_append.mp hev with hev | hev
          · exact he ev hev
          · rw [List.mem_singleton.mp hev]
            refine ⟨(tLon, tLat), (nbr.lon, nbr.lat), htc, ?_, ?_, ?_⟩
            · rw [← hc nbrId, ptCoordsOf, hnbr]
              rfl
            · exact not_lt.mp hdist
            · have hfalse : ((((nodeLines fs0).lookup nbrId).getD []).any
                  fun x => (((nodeLines fs0).lookup tId).getD []).contains x)
                    = false := Bool.eq_false_iff.mpr hlines
              refine List.all_eq_true.mpr ?_
              intro x hx
              have hx' := List.any_eq_false.mp hfalse x hx
              simpa using hx'

theorem cascadeFold_inv (fs0 : List Feat)
    (nls : List (String × List String)) (tId : String) (tLon tLat : ℚ)
    (tLines : List String) (hnls : nls = nodeLines fs0)
    (htc : ptCoordsOf fs0 tId = some (tLon, tLat))
    (htl : tLines = ((nodeLines fs0).lookup tId).getD []) :
    ∀ (frontier : List String) (st : CascadeSt),
      (∀ nid, ptCoordsOf st.feats nid = ptCoordsOf fs0 nid) →
      (∀ ev ∈ st.events, cascadeEventOk fs0 ev) →
      (∀ nid, ptCoordsOf
          (frontier.foldl (cascadeAbsorbNbr nls tId tLon tLat tLines) st).feats nid
          = ptCoordsOf fs0 nid) ∧
      ∀ ev ∈ (frontier.foldl (cascadeAbsorbNbr nls tId tLon tLat tLines) st).events,
        cascadeEventOk fs0 ev := by
  intro frontier
  induction frontier with
  | nil => intro st hc he; exact ⟨hc, he⟩
  | cons x rest ih =>
      intro st hc he
      rw [List.foldl_cons]
      rcases cascadeAbsorbNbr_inv fs0 nls tId tLon tLat tLines hnls htc htl
        st x hc he with ⟨hc', he'⟩
      exact ih _ hc' he'

theorem cascadeWalk_inv (fs0 : List Feat)
    (nls : List (String × List String)) (tId : String) (tLon tLat : ℚ)
    (tLines : List String) (hnls : nls = nodeLines fs0)
    (htc : ptCoordsOf fs0 tId = some (tLon, tLat))
    (htl : tLines = ((nodeLines fs0).lookup tId).getD []) :
    ∀ (k : Nat) (st : CascadeSt) (frontier : List String),
      (∀ nid, ptCoordsOf st.feats nid = ptCoordsOf fs0 nid) →
      (∀ ev ∈ st.events, cascadeEventOk fs0 ev) →
      (∀ nid, ptCoordsOf
          (cascadeWalk nls tId tLon tLat tLines k st frontier).1 nid
          = ptCoordsOf fs0 nid) ∧
      ∀ ev ∈ (cascadeWalk nls tId tLon tLat tLines k st frontier).2,
        cascadeEventOk fs0 ev := by
  intro k
  induction k with
  | zero =>
      intro st fr hc he
      simp only [cascadeWalk]
      exact ⟨hc, he⟩
  | succ k ih =>
      intro st fr hc he
      simp only [cascadeWalk]
      split
      · exact ⟨hc, he⟩
      · rcases cascadeFold_inv fs0 nls tId tLon tLat tLines hnls htc htl
          fr { st with nextFrontier := [] } hc he with ⟨hc', he'⟩
        exact ih _ _ hc' he'

theorem cascadeTarget_inv (fs0 : List Feat)
    (nls : List (String × List String)) (hnls : nls = nodeLines fs0)
    (st : List Feat × List (String × String)) (tId : String)
    (hc : ∀ nid, ptCoordsOf st.1 nid = ptCoordsOf fs0 nid)
    (he : ∀ ev ∈ st.2, cascadeEventOk fs0 ev) :
    (∀ nid, ptCoordsOf (cascadeTarget nls st tId).1 nid = ptCoordsOf fs0 nid) ∧
    ∀ ev ∈ (cascadeTarget nls st tId).2, cascadeEventOk fs0 ev := by
  simp only [cascadeTarget]
  split
  · exact ⟨hc, he⟩
  · rename_i t ht
    have htc : ptCoordsOf fs0 tId = some (t.lon, t.lat) := by
      rw [← hc tId, ptCoordsOf, ht]
      rfl
    exact cascadeWalk_inv fs0 nls tId t.lon t.lat _ hnls htc (by rw [hnls]) 3
      { feats := st.1, events := st.2, visited := [tId], nextFrontier := [] }
      _ hc he

/-- C5 amended: every node the cascade pass absorbs (every entry of its
absorb log) exists as a Point, lies within `ENDPOINT_MERGE_DIST` of its
merge target, and shares none of the target's original line memberships —
the walk is bounded at 3 hops by construction, but the absorbed node need
not be labelled: the code never examines the neighbour's label. -/
theorem claim_C5_amended (fs : List Feat) :
    ∀ ev ∈ (mergeNearbyEndpoints fs).2, cascadeEventOk fs ev := by
  have main : ∀ (ts : List String) (st : List Feat × List (String × String)),
      (∀ nid, ptCoordsOf st.1 nid = ptCoordsOf fs nid) →
      (∀ ev ∈ st.2, cascadeEventOk fs ev) →
      ∀ ev ∈ (ts.foldl (cascadeTarget (nodeLines fs)) st).2,
        cascadeEventOk fs ev := by
    intro ts
    induction ts with
    | nil => intro st hc he; exact he
    | cons t rest ih =>
        intro st hc he
        rw [List.foldl_cons]
        rcases cascadeTarget_inv fs (nodeLines fs) rfl st t hc he with ⟨hc', he'⟩
        exact ih _ hc' he'
  simp only [mergeNearbyEndpoints]
  exact main _ _ (fun nid => mergePass1_coords fs nid)
    (fun ev h => absurd h (List.not_mem_nil ev))

/-- C5 counterexample: the cascade absorbs a node with an empty station
label — "every node absorbed … is a labeled node" fails. -/
theorem claim_C5_counterexample :
    ¬ ∀ ev ∈ (mergeNearbyEndpoints cexC5Feats).2,
        labelOfPt cexC5Feats ev.2 ≠ "" := by decide

/-- Witness for `claim_C5_amended`: the absorb event (target T, absorbed
M) occurs on the counterexample graph and satisfies the amended
conditions. -/
theorem claim_C5_witness :
    ("T", "M") ∈ (mergeNearbyEndpoints cexC5Feats).2 ∧
      cascadeEventOk cexC5Feats ("T", "M") :=
  ⟨by decide, claim_C5_amended cexC5Feats ("T", "M") (by decide)⟩

end BikeMetro

